import Mathlib

/-!
Verification of the Ralph Wiggum loop controller (RalphLoopManager) and its
dispatch layer (RalphWiggumServer.handleRalphLoop), shallowly embedded from
the TypeScript source.

Modelling conventions:
* JS strings are `List Char`; string literals are written `"...".data`.
* JS numbers are `ℚ` where fractional values matter (the dispatch layer's
  `max_iterations` argument, the analyzer's arithmetic) and `Nat` where the
  source only ever holds non-negative integers (iteration counters,
  timestamps, durations).  Floating-point rounding is not modelled: the
  analyzer's arithmetic (`0.1`, `0.5`, `Math.ceil`) is interpreted exactly
  over `ℚ`.
* Wall-clock reads (`Date.now()`, `new Date()`) become an explicit `now : Nat`
  parameter.
* File-system effects (the snapshot JSON file and the append-only JSONL
  history log) are reified as a list of `PersistEvent`s emitted by each
  operation, in the order the source performs the writes.  A persistence
  failure in the source is caught and logged, so it never changes the
  in-memory result; dropping events models failed writes.
-/

namespace RalphSpec

/-- Whitespace for the purposes of JS `String.prototype.trim` and `\s`
(ASCII part; the Unicode space classes never occur in the strings the
source manipulates). -/
def isJsSpace (c : Char) : Bool :=
  c = ' ' || c = '\t' || c = '\n' || c = '\r' || c = '\x0b' || c = '\x0c'

/-- JS `String.prototype.trim`: strip whitespace from both ends. -/
def trimL (s : List Char) : List Char :=
  ((s.dropWhile isJsSpace).reverse.dropWhile isJsSpace).reverse

/-- JS word character, as used by the `\b` assertion: `[A-Za-z0-9_]`. -/
def isWordChar (c : Char) : Bool :=
  ('a' ≤ c && c ≤ 'z') || ('A' ≤ c && c ≤ 'Z') || ('0' ≤ c && c ≤ '9') || c = '_'

/-- JS `\d`: the ASCII digits. -/
def isDigitChar (c : Char) : Bool :=
  '0' ≤ c && c ≤ '9'

def promiseOpenTag : List Char := "<promise>".data

def promiseCloseTag : List Char := "</promise>".data

/-- Remainder of the input just after the first occurrence of `<promise>`,
if any. -/
def afterOpenTag : List Char → Option (List Char)
  | [] => none
  | c :: rest =>
    if promiseOpenTag.isPrefixOf (c :: rest) then
      some ((c :: rest).drop promiseOpenTag.length)
    else
      afterOpenTag rest

/-- Characters before the first occurrence of `</promise>`, if any. -/
def beforeCloseTag : List Char → Option (List Char)
  | [] => none
  | c :: rest =>
    if promiseCloseTag.isPrefixOf (c :: rest) then
      some []
    else
      (beforeCloseTag rest).map (c :: ·)

/-- The capture of `lastOutput.match(/<promise>(.*?)<\/promise>/s)`: with the
`s` flag `.` matches newlines, and the lazy quantifier makes the match run
from the first `<promise>` to the first `</promise>` after it.  (The leftmost
viable start is the first open tag: any close tag following a later open tag
also follows the first one.) -/
def extractPromise (s : List Char) : Option (List Char) :=
  (afterOpenTag s).bind beforeCloseTag

/-- Length consumed by the alternative `\b\d+\b` at the current position,
given the maximal leading digit run `d1` (already computed) and the previous
character of the original string (`none` at the start).  A shorter digit run
cannot satisfy the trailing `\b`, so only the maximal run is viable. -/
def matchBoundedNumber (prev : Option Char) (s : List Char) (d1 : List Char) :
    Option Nat :=
  let beforeOk := match prev with
    | none => true
    | some c => !isWordChar c
  let afterOk := match s.drop d1.length with
    | [] => true
    | c :: _ => !isWordChar c
  if beforeOk && afterOk then some d1.length else none

/-- Length consumed by `\d+:\d+` or, failing that, `\b\d+\b` at the current
position.  `\d+` is greedy and no shorter run can expose the `:`, so only the
maximal digit runs are viable. -/
def matchNumberAlternatives (prev : Option Char) (s : List Char) : Option Nat :=
  let d1 := s.takeWhile isDigitChar
  if d1.isEmpty then none
  else
    match s.drop d1.length with
    | ':' :: rest2 =>
      let d2 := rest2.takeWhile isDigitChar
      if d2.isEmpty then matchBoundedNumber prev s d1
      else some (d1.length + 1 + d2.length)
    | _ => matchBoundedNumber prev s d1

/-- Length consumed at the current position by the alternation
`\/[^\s]+|\d+:\d+|\b\d+\b`, trying the alternatives in order, or `none` when
no alternative matches here.  Any match consumes at least one character. -/
def matchErrorToken (prev : Option Char) (s : List Char) : Option Nat :=
  match s with
  | '/' :: rest =>
    let run := rest.takeWhile (fun c => !isJsSpace c)
    if run.isEmpty then matchNumberAlternatives prev (('/' : Char) :: rest)
    else some (1 + run.length)
  | _ => matchNumberAlternatives prev s

/-- The replacement token the source substitutes for every match. -/
def placeholderToken : List Char := "<n>".data

/-- One left-to-right pass of
`error.replace(/\/[^\s]+|\d+:\d+|\b\d+\b/g, "<n>")`: at each position try the
alternation; on a match emit `<n>` and resume after the matched text,
otherwise copy one character.  `fuel` bounds the number of steps; every step
consumes at least one character, so `s.length` fuel is always enough. -/
def replaceErrorTokens : Nat → Option Char → List Char → List Char
  | 0, _, _ => []
  | _ + 1, _, [] => []
  | fuel + 1, prev, c :: rest =>
    match matchErrorToken prev (c :: rest) with
    | some k =>
      placeholderToken ++
        replaceErrorTokens fuel ((c :: rest).take k).getLast? ((c :: rest).drop k)
    | none => c :: replaceErrorTokens fuel (some c) rest

/-- Normalization of an error message in `analyzeProgress`:
`error.replace(/\/[^\s]+|\d+:\d+|\b\d+\b/g, "<n>").trim()`. -/
def normalizeError (s : List Char) : List Char :=
  trimL (replaceErrorTokens s.length none s)

/-- Source interface `ExternalToolResult`. -/
structure ExternalToolResult where
  name : List Char
  command : List Char
  exitCode : Int
  output : List Char
  duration : Nat
  deriving Repr, DecidableEq

/-- Source interface `RalphIterationHistoryEntry`. -/
structure RalphIterationHistoryEntry where
  iteration : Nat
  timestamp : Nat
  duration : Option Nat
  output : List Char
  completionDetected : Bool
  filesModified : Option (List (List Char))
  commandsRun : Option (List (List Char))
  errors : Option (List (List Char))
  gitCommit : Option (List Char)
  externalToolsRun : Option (List ExternalToolResult)
  deriving Repr, DecidableEq

/-- Source interface `RalphLoopState`. -/
structure RalphLoopState where
  active : Bool
  iteration : Nat
  maxIterations : Nat
  completionPromise : Option (List Char)
  startedAt : Nat
  prompt : List Char
  history : List RalphIterationHistoryEntry
  gitEnabled : Bool
  autoCommit : Bool
  deriving Repr, DecidableEq

/-- Source interface `RalphProgressMetrics`.  `convergenceRate` is the JS
number modelled exactly over `ℚ`; the two optional fields are absent exactly
when the source never assigns them. -/
structure RalphProgressMetrics where
  stagnationDetected : Bool
  stagnationReason : Option (List Char)
  convergenceRate : ℚ
  repeatedErrors : List (List Char)
  suggestedActions : List (List Char)
  estimatedIterationsRemaining : Option Int
  deriving Repr, DecidableEq

/-- Source interface `RalphIterationResult`. -/
structure RalphIterationResult where
  completed : Bool
  iteration : Nat
  reason : List Char
  nextPrompt : Option (List Char)
  completionDetected : Option Bool
  progress : Option RalphProgressMetrics
  deriving Repr, DecidableEq

/-- The optional metadata bag of `processIteration`. -/
structure IterationMetadata where
  filesModified : Option (List (List Char)) := none
  commandsRun : Option (List (List Char)) := none
  errors : Option (List (List Char)) := none
  gitCommit : Option (List Char) := none
  externalToolsRun : Option (List ExternalToolResult) := none
  deriving Repr, DecidableEq

/-- The mutable fields of class `RalphLoopManager` (the file paths are fixed
configuration and play no role in the control logic). -/
structure RalphLoopManager where
  state : Option RalphLoopState
  lastIterationStartTime : Option Nat
  deriving Repr, DecidableEq

/-- A freshly constructed manager with no persisted snapshot to load. -/
def RalphLoopManager.fresh : RalphLoopManager :=
  { state := none, lastIterationStartTime := none }

/-- One file-system write performed by the manager, in program order:
`logAppend` is `appendToHistory` (one JSONL line appended to the history
log), `snapshotWrite` is `saveState` (the snapshot file rewritten with the
current in-memory state), `snapshotDelete` is the `unlinkSync` in
`cancelLoop`. -/
inductive PersistEvent where
  | logAppend (entry : RalphIterationHistoryEntry)
  | snapshotWrite (state : Option RalphLoopState)
  | snapshotDelete
  deriving Repr, DecidableEq

def PersistEvent.isLogAppend : PersistEvent → Bool
  | .logAppend _ => true
  | _ => false

def PersistEvent.isSnapshotWrite : PersistEvent → Bool
  | .snapshotWrite _ => true
  | _ => false

/-- Source method `RalphLoopManager.startLoop`: unconditionally overwrites
whatever state the manager held. -/
def startLoop (_m : RalphLoopManager) (now : Nat) (prompt : List Char)
    (maxIterations : Nat) (completionPromise : Option (List Char))
    (gitEnabled : Bool) (autoCommit : Bool) :
    RalphLoopState × RalphLoopManager × List PersistEvent :=
  let st : RalphLoopState :=
    { active := true
      iteration := 1
      maxIterations := maxIterations
      completionPromise := completionPromise
      startedAt := now
      prompt := prompt
      history := []
      gitEnabled := gitEnabled
      autoCommit := autoCommit }
  (st, { state := some st, lastIterationStartTime := some now },
    [PersistEvent.snapshotWrite (some st)])

/-- Source method `RalphLoopManager.cancelLoop`.  Note that when the loaded
state is inactive the method returns `false` without touching anything. -/
def cancelLoop (m : RalphLoopManager) :
    Bool × RalphLoopManager × List PersistEvent :=
  match m.state with
  | none => (false, m, [])
  | some st =>
    if st.active then
      (true, { m with state := none }, [PersistEvent.snapshotDelete])
    else
      (false, m, [])

/-- Source method `RalphLoopManager.isLoopActive`. -/
def isLoopActive (m : RalphLoopManager) : Bool :=
  match m.state with
  | none => false
  | some st => st.active

/-- Source method `RalphLoopManager.getHistory`. -/
def getHistory (m : RalphLoopManager) : List RalphIterationHistoryEntry :=
  match m.state with
  | none => []
  | some st => st.history

/-- The completion check at the top of `processIteration`: the guard
`if (completionPromise)` is JS truthiness, so a `null` or empty promise
never completes; otherwise the first `<promise>…</promise>` capture is
trimmed and compared for exact equality. -/
def detectCompletion (completionPromise : Option (List Char))
    (lastOutput : List Char) : Bool :=
  match completionPromise with
  | none => false
  | some p =>
    if p.isEmpty then false
    else
      match extractPromise lastOutput with
      | some extracted => trimL extracted == p
      | none => false

/-- The map update
`errorFrequency.set(normalized, (errorFrequency.get(normalized) || 0) + 1)`
on a JS `Map` modelled as an association list in insertion order: bump an
existing key in place, or append a new key with count 1. -/
def bumpCount : List (List Char × Nat) → List Char → List (List Char × Nat)
  | [], k => [(k, 1)]
  | (k₀, n) :: rest, k =>
    if k₀ = k then (k₀, n + 1) :: rest else (k₀, n) :: bumpCount rest k

/-- The errors of a history entry as the source reads them:
`entry.errors || []`. -/
def entryErrors (entry : RalphIterationHistoryEntry) : List (List Char) :=
  entry.errors.getD []

/-- The `errorFrequency` map of `analyzeProgress` after the single pass over
the history: every error of every entry, normalized, counted in insertion
order. -/
def errorFrequency (history : List RalphIterationHistoryEntry) :
    List (List Char × Nat) :=
  history.foldl
    (fun m entry =>
      (entryErrors entry).foldl (fun m e => bumpCount m (normalizeError e)) m)
    []

/-- The `totalErrors` counter of `analyzeProgress`. -/
def totalErrorCount (history : List RalphIterationHistoryEntry) : Nat :=
  history.foldl (fun n entry => n + (entryErrors entry).length) 0

/-- The `recentLengths` array of `analyzeProgress`: output lengths of the
entries with index `≥ history.length - 3`. -/
def recentLengths (history : List RalphIterationHistoryEntry) : List Nat :=
  (history.drop (history.length - 3)).map (fun entry => entry.output.length)

/-- The `recentCompletions` array of `analyzeProgress`. -/
def recentCompletions (history : List RalphIterationHistoryEntry) : List Bool :=
  (history.drop (history.length - 3)).map
    (fun entry => entry.completionDetected)

/-- The `metrics.repeatedErrors` list: the normalized signatures whose count reached
3, in map-iteration (= insertion) order. -/
def repeatedErrorsOf (history : List RalphIterationHistoryEntry) :
    List (List Char) :=
  ((errorFrequency history).filter (fun p => 3 ≤ p.2)).map Prod.fst

def repeatedStagnationMessage (repeated : List (List Char)) : List Char :=
  "Same error(s) repeating across iterations: ".data ++
    (", ".data).intercalate (repeated.take 2)

def repeatedStagnationActions : List (List Char) :=
  ["Consider a different approach - current strategy is not working".data,
   "Review the repeated error patterns and try addressing them differently".data]

def lengthStagnationMessage : List Char :=
  "Output length and structure similar across last 3 iterations - may be stuck in loop".data

def lengthStagnationActions : List (List Char) :=
  ["Try breaking down the task into smaller sub-tasks".data,
   "Consider reviewing the prompt for clarity".data]

/-- JS `Math.abs`, written so that it evaluates by kernel reduction on `ℚ`
(`ratAbs_eq_abs` below identifies it with `|·|`). -/
def ratAbs (q : ℚ) : ℚ :=
  if q < 0 then -q else q

/-- The `allSameLength` test of `analyzeProgress`: writing `first` for
`recentLengths[0]` (the variable the source names `avgLength`), every recent
length `len` satisfies `Math.abs(len - first) < len * 0.1` — each length is
compared against the first, but the 10% tolerance is taken of `len` itself. -/
def allSameLength (lengths : List Nat) : Bool :=
  lengths.all (fun len =>
    ratAbs ((len : ℚ) - (lengths.headI : ℚ)) < (len : ℚ) * (1 / 10))

/-- Whether the output-shape stagnation branch fires: three recent lengths,
all close to the first in the sense of `allSameLength`, and none of the three
entries detected completion. -/
def lengthStagnation (history : List RalphIterationHistoryEntry) : Bool :=
  (recentLengths history).length == 3 &&
    allSameLength (recentLengths history) &&
    (recentCompletions history).all (fun c => !c)

/-- The `metrics.convergenceRate` value:
`totalErrors > 0 ? 1 - uniqueErrors / totalErrors : 0.5`. -/
def convergenceRateOf (history : List RalphIterationHistoryEntry) : ℚ :=
  if 0 < totalErrorCount history then
    1 - ((errorFrequency history).length : ℚ) / (totalErrorCount history : ℚ)
  else
    1 / 2

/-- Binary length by structural recursion on a fuel argument (the number
itself bounds the required halvings), so that it evaluates by kernel
reduction. -/
def bitLenAux : ℕ → ℕ → ℕ
  | 0, _ => 0
  | fuel + 1, n => if n = 0 then 0 else bitLenAux fuel (n / 2) + 1

/-- Number of binary digits of a natural number (`0` for `0`): for `0 < b`,
`2 ^ (bitLen b - 1) ≤ b < 2 ^ bitLen b`. -/
def bitLen (n : ℕ) : ℕ :=
  bitLenAux n n

/-- Round an exact quotient to the nearest integer, ties to even: `q` and
`r` are the truncated quotient and the remainder of a division by `b`. -/
def rneRound (b q r : ℕ) : ℕ :=
  if b < 2 * r ∨ (2 * r = b ∧ q % 2 = 1) then q + 1 else q

/-- Round-to-nearest-even binary64 reciprocal.  For `0 < b` (with `1 / b` in
the normal range), writing `(m, s) = rneRecip b`, the IEEE double closest to
`1 / b` is exactly `m / 2 ^ s`: the scaled quotient `2 ^ s / b` lies in
`(2 ^ 52, 2 ^ 53]`, where binary64 significands have unit granularity, so
rounding it to the nearest integer with ties to even is precisely the IEEE
round-to-nearest of `1 / b` scaled by the exact power `2 ^ s`. -/
def rneRecip (b : ℕ) : ℕ × ℕ :=
  (rneRound b (2 ^ (bitLen b + 52) / b) (2 ^ (bitLen b + 52) % b),
    bitLen b + 52)

/-- The binary64 evaluation of `Math.ceil((1 - 0.5) / (0.5 / n))`, the
estimate the source produces when `convergenceRate` is exactly `0.5`.  On
this path the literals `0.5` and `1 - 0.5` are exactly representable and the
only rounded operations are the two divisions:
`fl(0.5 / n) = fl(1 / (2n)) = m₁ / 2 ^ s₁` and then
`fl(0.5 / (m₁ / 2 ^ s₁)) = fl(2 ^ (s₁ - 1) / m₁) = m₂ · 2 ^ (s₁ - 1 - s₂)`
(scaling by a power of two is exact), of which `Math.ceil` is taken exactly.
Because of the two roundings this is NOT always `n`: at `n = 49` it is
`50`. -/
def float64ZeroErrorEstimate (n : ℕ) : ℕ :=
  let p₁ := rneRecip (2 * n)
  let p₂ := rneRecip p₁.1
  if p₂.2 + 1 ≤ p₁.2 then p₂.1 * 2 ^ (p₁.2 - 1 - p₂.2)
  else (p₂.1 + 2 ^ (p₂.2 + 1 - p₁.2) - 1) / 2 ^ (p₂.2 + 1 - p₁.2)

/-- The `metrics.estimatedIterationsRemaining` value, assigned only when both
guards pass.  The source evaluates `Math.ceil((1 - rate) / (rate / n))` in
binary64.  When the rate is exactly one half — in particular on the
zero-error path, where the source assigns the literal `0.5` — that
evaluation is reproduced bit-exactly by `float64ZeroErrorEstimate` (`0.5`
and `1 - 0.5` are exactly representable, so the two divisions are the only
rounded operations).  For other rates the exact rational ceiling stands in
for the binary64 value (there the model's `rate` itself already departs from
the program's double at rounding granularity, so no bit-exact rendering is
available; no claim quantifies over that path's value). -/
def estimatedRemainingOf (history : List RalphIterationHistoryEntry) :
    Option Int :=
  let rate := convergenceRateOf history
  if 0 < rate then
    let progressPerIteration := rate / (history.length : ℚ)
    if 0 < progressPerIteration then
      if rate = 1 / 2 then
        some (float64ZeroErrorEstimate history.length)
      else
        some ⌈(1 - rate) / progressPerIteration⌉
    else none
  else none

/-- The metrics object `analyzeProgress` initializes and returns unchanged
when `history.length < 3`. -/
def emptyMetrics : RalphProgressMetrics :=
  { stagnationDetected := false
    stagnationReason := none
    convergenceRate := 0
    repeatedErrors := []
    suggestedActions := []
    estimatedIterationsRemaining := none }

/-- Source method `RalphLoopManager.analyzeProgress`, as a pure function of
the history it reads.  The imperative single pass is rendered by the helper
folds above; field by field the result is what the method leaves in
`metrics`: when both stagnation branches fire the reason written last (the
output-shape one) wins, and the suggested actions accumulate. -/
def analyzeProgress (history : List RalphIterationHistoryEntry) :
    RalphProgressMetrics :=
  if history.length < 3 then emptyMetrics
  else
    let repeated := repeatedErrorsOf history
    let errorStagnation := !repeated.isEmpty
    let lenStagnation := lengthStagnation history
    { stagnationDetected := errorStagnation || lenStagnation
      stagnationReason :=
        if lenStagnation then some lengthStagnationMessage
        else if errorStagnation then some (repeatedStagnationMessage repeated)
        else none
      convergenceRate := convergenceRateOf history
      repeatedErrors := repeated
      suggestedActions :=
        (if errorStagnation then repeatedStagnationActions else []) ++
          (if lenStagnation then lengthStagnationActions else [])
      estimatedIterationsRemaining := estimatedRemainingOf history }

/-- Lookup of a key's count in the association-list rendering of the JS
`Map` (0 for an absent key, matching `errorFrequency.get(k) || 0`). -/
def countOf : List (List Char × Nat) → List Char → Nat
  | [], _ => 0
  | (k, n) :: rest, s => if k = s then n else countOf rest s

/-- Key column of the association-list rendering of the JS `Map`. -/
def freqKeys (m : List (List Char × Nat)) : List (List Char) :=
  m.map Prod.fst

/-- Every error string of the history, normalized, in processing order. -/
def allSignatures (history : List RalphIterationHistoryEntry) :
    List (List Char) :=
  history.flatMap (fun entry => (entryErrors entry).map normalizeError)

/-- Occurrences of the normalized signature `s` within one entry. -/
def sigCountEntry (s : List Char) (entry : RalphIterationHistoryEntry) :
    Nat :=
  ((entryErrors entry).map normalizeError).count s

/-- Total occurrences of the normalized signature `s` across the history. -/
def sigCount (s : List Char) (history : List RalphIterationHistoryEntry) :
    Nat :=
  (allSignatures history).count s

/-- The number of distinct normalized error signatures of the history. -/
def distinctSignatureCount (history : List RalphIterationHistoryEntry) :
    Nat :=
  (allSignatures history).toFinset.card

def noActiveLoopReason : List Char := "No active Ralph loop found".data

def completionReason (completionPromise : Option (List Char)) : List Char :=
  "Completion promise detected: <promise>".data ++
    completionPromise.getD [] ++ "</promise>".data

def maxIterationsReason (maxIterations : Nat) : List Char :=
  "Max iterations (".data ++ (Nat.repr maxIterations).data ++ ") reached".data

def continueReason (nextIteration : Nat) : List Char :=
  "Iteration ".data ++ (Nat.repr nextIteration).data ++ " - continue loop".data

/-- Source method `RalphLoopManager.processIteration`.  The source pushes the
new entry onto the in-memory history, appends it to the history log, and only
then either terminates (via `cancelLoop`, which deletes the snapshot) or
increments the iteration counter and rewrites the snapshot; the emitted
`PersistEvent`s record the file writes in that order. -/
def processIteration (m : RalphLoopManager) (now : Nat)
    (lastOutput : List Char) (metadata : IterationMetadata) :
    RalphIterationResult × RalphLoopManager × List PersistEvent :=
  match m.state with
  | none =>
    ({ completed := true, iteration := 0, reason := noActiveLoopReason,
       nextPrompt := none, completionDetected := none, progress := none },
      m, [])
  | some st =>
    if st.active then
      let completionDetected := detectCompletion st.completionPromise lastOutput
      let duration := m.lastIterationStartTime.map (fun t => now - t)
      let historyEntry : RalphIterationHistoryEntry :=
        { iteration := st.iteration
          timestamp := now
          duration := duration
          output := lastOutput.take 1000
          completionDetected := completionDetected
          filesModified := metadata.filesModified
          commandsRun := metadata.commandsRun
          errors := metadata.errors
          gitCommit := metadata.gitCommit
          externalToolsRun := metadata.externalToolsRun }
      let st₁ := { st with history := st.history ++ [historyEntry] }
      if completionDetected then
        ({ completed := true, iteration := st.iteration,
           reason := completionReason st.completionPromise,
           nextPrompt := none, completionDetected := some true,
           progress := none },
          { state := none, lastIterationStartTime := m.lastIterationStartTime },
          [PersistEvent.logAppend historyEntry, PersistEvent.snapshotDelete])
      else if 0 < st.maxIterations ∧ st.maxIterations ≤ st.iteration then
        ({ completed := true, iteration := st.iteration,
           reason := maxIterationsReason st.maxIterations,
           nextPrompt := none, completionDetected := none, progress := none },
          { state := none, lastIterationStartTime := m.lastIterationStartTime },
          [PersistEvent.logAppend historyEntry, PersistEvent.snapshotDelete])
      else
        let progress := analyzeProgress st₁.history
        let nextIteration := st.iteration + 1
        let st₂ := { st₁ with iteration := nextIteration }
        ({ completed := false, iteration := nextIteration,
           reason := continueReason nextIteration,
           nextPrompt := some st.prompt, completionDetected := none,
           progress := some progress },
          { state := some st₂, lastIterationStartTime := some now },
          [PersistEvent.logAppend historyEntry,
           PersistEvent.snapshotWrite (some st₂)])
    else
      ({ completed := true, iteration := 0, reason := noActiveLoopReason,
         nextPrompt := none, completionDetected := none, progress := none },
        m, [])

/-- One `ralph_iterate`-style call: the wall clock reading plus the
arguments handed to `processIteration`. -/
structure IterCall where
  now : Nat
  output : List Char
  metadata : IterationMetadata
  deriving Repr, DecidableEq

/-- A sequence of `processIteration` calls, collecting every result and every
persistence event in order. -/
def runIterations (m : RalphLoopManager) :
    List IterCall → RalphLoopManager × List RalphIterationResult × List PersistEvent
  | [] => (m, [], [])
  | c :: cs =>
    let step := processIteration m c.now c.output c.metadata
    let rest := runIterations step.2.1 cs
    (rest.1, step.1 :: rest.2.1, step.2.2 ++ rest.2.2)

/-- The number of calls in a sequence that are made while a loop is active
(the calls for which the source writes a history-log line). -/
def countActiveCalls (m : RalphLoopManager) : List IterCall → Nat
  | [] => 0
  | c :: cs =>
    (if isLoopActive m then 1 else 0) +
      countActiveCalls (processIteration m c.now c.output c.metadata).2.1 cs

/-- The handler's answer when it does not throw: either the refusal text sent
back while a loop is already active, or the activation banner for the state
it just created. -/
inductive RalphLoopReply where
  | alreadyActive
  | started (st : RalphLoopState)
  deriving Repr, DecidableEq

/-- The prompt guard `!finalPrompt || finalPrompt.trim() === ""` (JS
truthiness: an absent prompt and the empty string are both falsy, and the
empty string also trims to itself). -/
def promptMissing : Option (List Char) → Bool
  | none => true
  | some p => (trimL p).isEmpty

/-- The guard
`typeof m !== "number" || m < 0 || !Number.isInteger(m)` on the
`max_iterations` number. -/
def maxIterationsValid (q : ℚ) : Prop :=
  0 ≤ q ∧ q.den = 1

instance (q : ℚ) : Decidable (maxIterationsValid q) := by
  unfold maxIterationsValid
  infer_instance

def promptRequiredMessage : List Char :=
  "prompt is required (or provide a valid template_id)".data

def maxIterationsInvalidMessage : List Char :=
  "max_iterations must be a non-negative integer".data

/-- Source method `RalphWiggumServer.handleRalphLoop` on a direct prompt (no
`template_id`), which is the path the spec describes.  `max_iterations`
arrives as an arbitrary JS number, modelled as `ℚ`; the `typeof` checks on
the typed arguments are vacuous here.  `Except.error` is the thrown
`Error`; the manager and event list are returned unchanged on a throw, since
the handler throws before touching the manager. -/
def handleRalphLoop (m : RalphLoopManager) (now : Nat)
    (prompt : Option (List Char)) (max_iterations : ℚ)
    (completion_promise : Option (List Char)) (git_enabled : Bool)
    (auto_commit : Bool) :
    Except (List Char) RalphLoopReply × RalphLoopManager × List PersistEvent :=
  if promptMissing prompt then
    (Except.error promptRequiredMessage, m, [])
  else if ¬ maxIterationsValid max_iterations then
    (Except.error maxIterationsInvalidMessage, m, [])
  else if isLoopActive m then
    (Except.ok RalphLoopReply.alreadyActive, m, [])
  else
    let started := startLoop m now (prompt.getD []) max_iterations.num.toNat
      completion_promise git_enabled auto_commit
    (Except.ok (RalphLoopReply.started started.1), started.2.1, started.2.2)

/-! Concrete fixtures used by witnesses and counterexamples. -/

/-- A loop started on a fresh manager with `completionPromise = "DONE"` and
unlimited iterations. -/
def doneLoopManager : RalphLoopManager :=
  (startLoop RalphLoopManager.fresh 0 "task".data 0 (some "DONE".data) true
    false).2.1

/-- The state held by `doneLoopManager`. -/
def doneLoopState : RalphLoopState :=
  (startLoop RalphLoopManager.fresh 0 "task".data 0 (some "DONE".data) true
    false).1

/-- A loop started on a fresh manager with `maxIterations = 2`. -/
def twoIterManager : RalphLoopManager :=
  (startLoop RalphLoopManager.fresh 0 "task".data 2 none true false).2.1

/-- The manager after one continuing call on `twoIterManager`: an active loop
sitting at iteration 2. -/
def midLoopManager : RalphLoopManager :=
  (processIteration twoIterManager 1 "o".data {}).2.1

/-- A history entry carrying only an output of the given length, as used to
probe the output-shape stagnation check. -/
def plainEntry (n : Nat) : RalphIterationHistoryEntry :=
  { iteration := 1, timestamp := 0, duration := none
    output := List.replicate n 'a'
    completionDetected := false, filesModified := none, commandsRun := none
    errors := none, gitCommit := none, externalToolsRun := none }

/-- The history entry `processIteration` records for the current iteration,
named so the branch lemmas below can speak about it. -/
def iterationEntry (m : RalphLoopManager) (st : RalphLoopState) (now : Nat)
    (out : List Char) (md : IterationMetadata) : RalphIterationHistoryEntry :=
  { iteration := st.iteration
    timestamp := now
    duration := m.lastIterationStartTime.map (fun t => now - t)
    output := out.take 1000
    completionDetected := detectCompletion st.completionPromise out
    filesModified := md.filesModified
    commandsRun := md.commandsRun
    errors := md.errors
    gitCommit := md.gitCommit
    externalToolsRun := md.externalToolsRun }

/-- The state the continue branch of `processIteration` persists: the new
entry pushed and the iteration counter incremented. -/
def continuedState (st : RalphLoopState) (entry : RalphIterationHistoryEntry) :
    RalphLoopState :=
  { st with history := st.history ++ [entry], iteration := st.iteration + 1 }

/-- A history entry reporting a single error string. -/
def errorEntry (e : List Char) : RalphIterationHistoryEntry :=
  { plainEntry 5 with errors := some [e] }

/-- A history entry reporting three error strings that normalize to the same
signature. -/
def tripleErrorEntry : RalphIterationHistoryEntry :=
  { plainEntry 5 with
    errors := some ["Error at /a/b.js:10:4".data, "Error at /x/y.js:99:1".data,
      "Error at /q/r.js:3:9".data] }

/-! Helper lemmas about the branches of `processIteration`. -/

theorem ratAbs_eq_abs (q : ℚ) : ratAbs q = |q| := by
  unfold ratAbs
  by_cases hq : q < 0
  · rw [if_pos hq, abs_of_neg hq]
  · rw [if_neg hq, abs_of_nonneg (not_lt.mp hq)]

theorem processIteration_inactive (m : RalphLoopManager) (now : Nat)
    (out : List Char) (md : IterationMetadata)
    (h : isLoopActive m = false) :
    processIteration m now out md =
      ({ completed := true, iteration := 0, reason := noActiveLoopReason,
         nextPrompt := none, completionDetected := none, progress := none },
        m, []) := by
  unfold isLoopActive at h
  match hm : m.state with
  | none => simp [processIteration, hm]
  | some st =>
    rw [hm] at h
    simp only at h
    simp [processIteration, hm, h]

theorem processIteration_detected (m : RalphLoopManager)
    (st : RalphLoopState) (now : Nat) (out : List Char)
    (md : IterationMetadata) (hst : m.state = some st)
    (ha : st.active = true)
    (hd : detectCompletion st.completionPromise out = true) :
    processIteration m now out md =
      ({ completed := true, iteration := st.iteration,
         reason := completionReason st.completionPromise,
         nextPrompt := none, completionDetected := some true,
         progress := none },
        { state := none, lastIterationStartTime := m.lastIterationStartTime },
        [PersistEvent.logAppend (iterationEntry m st now out md),
         PersistEvent.snapshotDelete]) := by
  simp [processIteration, hst, ha, hd, iterationEntry]

theorem processIteration_maxed (m : RalphLoopManager)
    (st : RalphLoopState) (now : Nat) (out : List Char)
    (md : IterationMetadata) (hst : m.state = some st)
    (ha : st.active = true)
    (hd : detectCompletion st.completionPromise out = false)
    (hmax : 0 < st.maxIterations ∧ st.maxIterations ≤ st.iteration) :
    processIteration m now out md =
      ({ completed := true, iteration := st.iteration,
         reason := maxIterationsReason st.maxIterations,
         nextPrompt := none, completionDetected := none, progress := none },
        { state := none, lastIterationStartTime := m.lastIterationStartTime },
        [PersistEvent.logAppend (iterationEntry m st now out md),
         PersistEvent.snapshotDelete]) := by
  simp [processIteration, hst, ha, hd, hmax, iterationEntry]

theorem processIteration_continue (m : RalphLoopManager)
    (st : RalphLoopState) (now : Nat) (out : List Char)
    (md : IterationMetadata) (hst : m.state = some st)
    (ha : st.active = true)
    (hd : detectCompletion st.completionPromise out = false)
    (hmax : ¬ (0 < st.maxIterations ∧ st.maxIterations ≤ st.iteration)) :
    processIteration m now out md =
      ({ completed := false, iteration := st.iteration + 1,
         reason := continueReason (st.iteration + 1),
         nextPrompt := some st.prompt, completionDetected := none,
         progress := some (analyzeProgress
           (st.history ++ [iterationEntry m st now out md])) },
        { state := some (continuedState st (iterationEntry m st now out md)),
          lastIterationStartTime := some now },
        [PersistEvent.logAppend (iterationEntry m st now out md),
         PersistEvent.snapshotWrite
           (some (continuedState st (iterationEntry m st now out md)))]) := by
  simp [processIteration, hst, ha, hd, hmax, iterationEntry, continuedState]

/-- Claim C6: when no loop is active, no operation raises — `processIteration`
(on every output) returns a structured result with `completed = true` and the
"no active loop" reason leaving the manager untouched, and `cancelLoop`
returns `false`; after `startLoop`, the first `cancelLoop` returns `true` and
leaves the controller inactive, and a second `cancelLoop` returns `false`.
(Both operations are total functions in the model, as in the source, which
has no throw on these paths.) -/
theorem no_active_loop_structured_results :
    (∀ (m : RalphLoopManager) (now : Nat) (out : List Char)
        (md : IterationMetadata), isLoopActive m = false →
        (processIteration m now out md).1.completed = true ∧
        (processIteration m now out md).1.reason = noActiveLoopReason ∧
        (processIteration m now out md).2.1 = m ∧
        cancelLoop m = (false, m, [])) ∧
    (∀ (m₀ : RalphLoopManager) (now : Nat) (prompt : List Char)
        (maxIterations : Nat) (promise : Option (List Char)) (g a : Bool),
        (cancelLoop (startLoop m₀ now prompt maxIterations promise g a).2.1).1
            = true ∧
        isLoopActive
          (cancelLoop
            (startLoop m₀ now prompt maxIterations promise g a).2.1).2.1
            = false ∧
        (cancelLoop
          (cancelLoop
            (startLoop m₀ now prompt maxIterations promise g a).2.1).2.1).1
            = false) := by
  constructor
  · intro m now out md h
    rw [processIteration_inactive m now out md h]
    refine ⟨rfl, rfl, rfl, ?_⟩
    unfold isLoopActive at h
    match hm : m.state with
    | none => simp [cancelLoop, hm]
    | some st =>
      rw [hm] at h
      simp only at h
      simp [cancelLoop, hm, h]
  · intro m₀ now prompt maxIterations promise g a
    simp [startLoop, cancelLoop, isLoopActive]

/-- Witness for `no_active_loop_structured_results` at a fresh manager and at
a loop just started with `maxIterations = 2`. -/
theorem no_active_loop_structured_results_witness :
    ((processIteration RalphLoopManager.fresh 3 "out".data {}).1.completed
        = true ∧
      (processIteration RalphLoopManager.fresh 3 "out".data {}).1.reason
        = noActiveLoopReason ∧
      (processIteration RalphLoopManager.fresh 3 "out".data {}).2.1
        = RalphLoopManager.fresh ∧
      cancelLoop RalphLoopManager.fresh
        = (false, RalphLoopManager.fresh, [])) ∧
    ((cancelLoop
        (startLoop RalphLoopManager.fresh 0 "task".data 2 none true
          false).2.1).1 = true ∧
      isLoopActive
        (cancelLoop
          (startLoop RalphLoopManager.fresh 0 "task".data 2 none true
            false).2.1).2.1 = false ∧
      (cancelLoop
        (cancelLoop
          (startLoop RalphLoopManager.fresh 0 "task".data 2 none true
            false).2.1).2.1).1 = false) :=
  ⟨no_active_loop_structured_results.1 RalphLoopManager.fresh 3 "out".data {}
      rfl,
    no_active_loop_structured_results.2 RalphLoopManager.fresh 0 "task".data 2
      none true false⟩

/-- Claim C4: on an active loop with `maxIterations = M > 0` and no
completion detected, a `processIteration` with current iteration `< M`
returns `completed = false` with the iteration incremented and the loop still
active, while a `processIteration` whose current iteration is `≥ M`
terminates: it returns `completed = true` with the max-iterations reason, and
the loop is no longer active afterwards. -/
theorem max_iterations_termination (m : RalphLoopManager)
    (st : RalphLoopState) (now : Nat) (out : List Char)
    (md : IterationMetadata) (hst : m.state = some st)
    (ha : st.active = true) (hM : 0 < st.maxIterations)
    (hd : detectCompletion st.completionPromise out = false) :
    (st.iteration < st.maxIterations →
      (processIteration m now out md).1.completed = false ∧
      (processIteration m now out md).1.iteration = st.iteration + 1 ∧
      isLoopActive (processIteration m now out md).2.1 = true) ∧
    (st.maxIterations ≤ st.iteration →
      (processIteration m now out md).1.completed = true ∧
      (processIteration m now out md).1.reason
        = maxIterationsReason st.maxIterations ∧
      isLoopActive (processIteration m now out md).2.1 = false) := by
  constructor
  · intro hlt
    have hmax : ¬ (0 < st.maxIterations ∧ st.maxIterations ≤ st.iteration) :=
      by rintro ⟨-, hle⟩; omega
    rw [processIteration_continue m st now out md hst ha hd hmax]
    simp [isLoopActive, continuedState, ha]
  · intro hle
    rw [processIteration_maxed m st now out md hst ha hd ⟨hM, hle⟩]
    simp [isLoopActive]

/-- Witness for `max_iterations_termination`: with `maxIterations = 2`, the
first call returns `completed := false, iteration := 2` and the second call
terminates with the max-iterations reason, leaving the loop inactive. -/
theorem max_iterations_termination_witness :
    ((processIteration twoIterManager 1 "o".data {}).1.completed = false ∧
      (processIteration twoIterManager 1 "o".data {}).1.iteration = 2 ∧
      isLoopActive (processIteration twoIterManager 1 "o".data {}).2.1
        = true) ∧
    ((processIteration (processIteration twoIterManager 1 "o".data {}).2.1 2
        "o".data {}).1.completed = true ∧
      (processIteration (processIteration twoIterManager 1 "o".data {}).2.1 2
        "o".data {}).1.reason = maxIterationsReason 2 ∧
      isLoopActive
        (processIteration (processIteration twoIterManager 1 "o".data {}).2.1
          2 "o".data {}).2.1 = false) := by
  constructor
  · exact (max_iterations_termination twoIterManager
      (startLoop RalphLoopManager.fresh 0 "task".data 2 none true false).1 1
      "o".data {} rfl rfl (by decide) rfl).1 (by decide)
  · exact (max_iterations_termination
      (processIteration twoIterManager 1 "o".data {}).2.1
      (continuedState
        (startLoop RalphLoopManager.fresh 0 "task".data 2 none true false).1
        (iterationEntry twoIterManager
          (startLoop RalphLoopManager.fresh 0 "task".data 2 none true false).1
          1 "o".data {})) 2 "o".data {} rfl rfl (by decide) rfl).2 (by decide)

/-- Claim C1, counterexample: with `completionPromise = "DONE"`, output
containing `<promise> DONE </promise>` DOES complete the loop (the source
trims the captured text before comparing, so the inner whitespace is
irrelevant), contradicting the claim that it does not; and an output whose
first `<promise>` span does not match, such as
`x<promise>a</promise><promise>DONE</promise>`, does NOT complete the loop
even though it contains a span whose trimmed contents equal `DONE`,
contradicting the claim's "exactly when the output contains" direction. -/
theorem promise_completion_claim_counterexample :
    ((processIteration doneLoopManager 1 "<promise> DONE </promise>".data
        {}).1.completed = true ∧
      (processIteration doneLoopManager 1 "<promise> DONE </promise>".data
        {}).1.completionDetected = some true) ∧
    (trimL " DONE ".data = "DONE".data) ∧
    ((processIteration doneLoopManager 1
        "x<promise>a</promise><promise>DONE</promise>".data {}).1.completed
        = false ∧
      (extractPromise "<promise>DONE</promise>".data).map trimL
        = some "DONE".data) := by
  decide

/-- Claim C1 (amended): with an active loop whose `completionPromise` is
`"DONE"`, `processIteration` completes the loop
(`completed = true, completionDetected = true`, snapshot state destroyed)
exactly when the FIRST (non-greedy) `<promise>…</promise>` span of the
output has trimmed contents equal to `"DONE"`; in particular
`<promise>DONE</promise>` and `<promise> DONE </promise>` complete the loop
(contents are trimmed before the exact comparison), while
`<promise>done</promise>` does not. -/
theorem promise_completion_iff_trimmed_first_span (m : RalphLoopManager)
    (st : RalphLoopState) (now : Nat) (out : List Char)
    (md : IterationMetadata) (hst : m.state = some st)
    (ha : st.active = true)
    (hp : st.completionPromise = some "DONE".data) :
    (((processIteration m now out md).1.completed = true ∧
      (processIteration m now out md).1.completionDetected = some true) ↔
      (extractPromise out).map trimL = some "DONE".data) ∧
    ((extractPromise out).map trimL = some "DONE".data →
      (processIteration m now out md).2.1.state = none) := by
  have hdet : detectCompletion st.completionPromise out = true ↔
      (extractPromise out).map trimL = some "DONE".data := by
    rw [hp]
    unfold detectCompletion
    cases hext : extractPromise out with
    | none => simp
    | some extracted => simp
  cases hd : detectCompletion st.completionPromise out with
  | true =>
    rw [processIteration_detected m st now out md hst ha hd]
    have := hdet.mp hd
    simp [this]
  | false =>
    have hne : ¬ ((extractPromise out).map trimL = some "DONE".data) := by
      intro hcontra
      rw [hdet.mpr hcontra] at hd
      exact Bool.true_eq_false.mp hd
    by_cases hmax : 0 < st.maxIterations ∧ st.maxIterations ≤ st.iteration
    · rw [processIteration_maxed m st now out md hst ha hd hmax]
      simp [hne]
    · rw [processIteration_continue m st now out md hst ha hd hmax]
      simp [hne]

/-- Witness for `promise_completion_iff_trimmed_first_span` on the loop with
promise `"DONE"` and the output `<promise>DONE</promise>`. -/
theorem promise_completion_iff_trimmed_first_span_witness :
    (((processIteration doneLoopManager 1 "<promise>DONE</promise>".data
        {}).1.completed = true ∧
      (processIteration doneLoopManager 1 "<promise>DONE</promise>".data
        {}).1.completionDetected = some true) ↔
      (extractPromise "<promise>DONE</promise>".data).map trimL
        = some "DONE".data) ∧
    ((extractPromise "<promise>DONE</promise>".data).map trimL
        = some "DONE".data →
      (processIteration doneLoopManager 1 "<promise>DONE</promise>".data
        {}).2.1.state = none) :=
  promise_completion_iff_trimmed_first_span doneLoopManager doneLoopState 1
    "<promise>DONE</promise>".data {} rfl rfl rfl

theorem processIteration_not_completed (m : RalphLoopManager)
    (st : RalphLoopState) (now : Nat) (out : List Char)
    (md : IterationMetadata) (hst : m.state = some st)
    (ha : st.active = true)
    (hc : (processIteration m now out md).1.completed = false) :
    (processIteration m now out md).2.1.state =
      some (continuedState st (iterationEntry m st now out md)) ∧
    (processIteration m now out md).1.iteration = st.iteration + 1 := by
  cases hd : detectCompletion st.completionPromise out with
  | true =>
    rw [processIteration_detected m st now out md hst ha hd] at hc
    simp at hc
  | false =>
    by_cases hmax : 0 < st.maxIterations ∧ st.maxIterations ≤ st.iteration
    · rw [processIteration_maxed m st now out md hst ha hd hmax] at hc
      simp at hc
    · rw [processIteration_continue m st now out md hst ha hd hmax]
      exact ⟨rfl, rfl⟩

theorem runIterations_preserves_counter :
    ∀ (calls : List IterCall) (m : RalphLoopManager) (st : RalphLoopState),
      m.state = some st → st.active = true →
      st.iteration = st.history.length + 1 →
      (∀ r ∈ (runIterations m calls).2.1, r.completed = false) →
      ∃ st₂, (runIterations m calls).1.state = some st₂ ∧
        st₂.active = true ∧
        st₂.history.length = st.history.length + calls.length ∧
        st₂.iteration = st₂.history.length + 1
  | [], m, st, hst, ha, hinv, _ =>
    ⟨st, by simpa [runIterations] using hst, ha, by simp, hinv⟩
  | c :: cs, m, st, hst, ha, hinv, hall => by
    have hchead : (processIteration m c.now c.output c.metadata).1.completed
        = false := by
      refine hall _ ?_
      simp [runIterations]
    obtain ⟨hstate, -⟩ :=
      processIteration_not_completed m st c.now c.output c.metadata hst ha
        hchead
    have htail : ∀ r ∈
        (runIterations (processIteration m c.now c.output c.metadata).2.1
          cs).2.1, r.completed = false := by
      intro r hr
      refine hall r ?_
      simp [runIterations]
      exact Or.inr hr
    obtain ⟨st₂, h₁, h₂, h₃, h₄⟩ :=
      runIterations_preserves_counter cs
        (processIteration m c.now c.output c.metadata).2.1
        (continuedState st (iterationEntry m st c.now c.output c.metadata))
        hstate (by simpa [continuedState] using ha)
        (by simp [continuedState, iterationEntry]; omega) htail
    refine ⟨st₂, ?_, h₂, ?_, h₄⟩
    · simpa [runIterations] using h₁
    · simp only [continuedState, List.length_append, List.length_cons,
        List.length_nil] at h₃
      simp [runIterations, h₃]
      omega

/-- Claim C2: every non-terminating `processIteration` call on an active loop
appends exactly one `IterationRecord` to the history and increments
`iteration` by exactly one; consequently, after `startLoop` and `N`
consecutive `processIteration` calls that each return `completed = false`,
the state satisfies `history.length = N` and
`iteration = history.length + 1 = N + 1`. -/
theorem iteration_counter_invariant :
    (∀ (m : RalphLoopManager) (st : RalphLoopState) (now : Nat)
        (out : List Char) (md : IterationMetadata),
        m.state = some st → st.active = true →
        (processIteration m now out md).1.completed = false →
        ∃ st₂ entry, (processIteration m now out md).2.1.state = some st₂ ∧
          st₂.history = st.history ++ [entry] ∧
          st₂.iteration = st.iteration + 1) ∧
    (∀ (m₀ : RalphLoopManager) (now : Nat) (prompt : List Char)
        (maxIterations : Nat) (promise : Option (List Char)) (g a : Bool)
        (calls : List IterCall),
        (∀ r ∈ (runIterations
            (startLoop m₀ now prompt maxIterations promise g a).2.1
            calls).2.1, r.completed = false) →
        ∃ st₂, (runIterations
            (startLoop m₀ now prompt maxIterations promise g a).2.1
            calls).1.state = some st₂ ∧
          st₂.active = true ∧
          st₂.history.length = calls.length ∧
          st₂.iteration = calls.length + 1) := by
  constructor
  · intro m st now out md hst ha hc
    obtain ⟨hstate, -⟩ :=
      processIteration_not_completed m st now out md hst ha hc
    exact ⟨continuedState st (iterationEntry m st now out md),
      iterationEntry m st now out md, hstate, rfl, rfl⟩
  · intro m₀ now prompt maxIterations promise g a calls hall
    obtain ⟨st₂, h₁, h₂, h₃, h₄⟩ :=
      runIterations_preserves_counter calls
        (startLoop m₀ now prompt maxIterations promise g a).2.1
        (startLoop m₀ now prompt maxIterations promise g a).1 rfl rfl rfl hall
    refine ⟨st₂, h₁, h₂, ?_, ?_⟩
    · simpa [startLoop] using h₃
    · rw [h₄]
      congr 1
      simpa [startLoop] using h₃

/-- Witness for `iteration_counter_invariant`: a single non-terminating call
on the `"DONE"`-promise loop, and a two-call run on an unbounded loop, ending
with `iteration = 3` and two history records. -/
theorem iteration_counter_invariant_witness :
    (∃ st₂ entry,
      (processIteration doneLoopManager 1 "working".data {}).2.1.state
          = some st₂ ∧
        st₂.history = doneLoopState.history ++ [entry] ∧
        st₂.iteration = doneLoopState.iteration + 1) ∧
    (∃ st₂,
      (runIterations
          (startLoop RalphLoopManager.fresh 0 "task".data 0 none true
            false).2.1
          [⟨1, "a".data, {}⟩, ⟨2, "b".data, {}⟩]).1.state = some st₂ ∧
        st₂.active = true ∧ st₂.history.length = 2 ∧ st₂.iteration = 3) :=
  ⟨iteration_counter_invariant.1 doneLoopManager doneLoopState 1
      "working".data {} rfl rfl (by decide),
    iteration_counter_invariant.2 RalphLoopManager.fresh 0 "task".data 0 none
      true false [⟨1, "a".data, {}⟩, ⟨2, "b".data, {}⟩] (by decide)⟩

theorem isLoopActive_iff (m : RalphLoopManager) :
    isLoopActive m = true ↔
      ∃ st, m.state = some st ∧ st.active = true := by
  unfold isLoopActive
  match hm : m.state with
  | none => simp
  | some st => simp

theorem processIteration_events (m : RalphLoopManager) (st : RalphLoopState)
    (now : Nat) (out : List Char) (md : IterationMetadata)
    (hst : m.state = some st) (ha : st.active = true) :
    (processIteration m now out md).2.2 =
        [PersistEvent.logAppend (iterationEntry m st now out md),
         PersistEvent.snapshotDelete] ∨
      (processIteration m now out md).2.2 =
        [PersistEvent.logAppend (iterationEntry m st now out md),
         PersistEvent.snapshotWrite
           (some (continuedState st (iterationEntry m st now out md)))] := by
  cases hd : detectCompletion st.completionPromise out with
  | true =>
    left
    rw [processIteration_detected m st now out md hst ha hd]
  | false =>
    by_cases hmax : 0 < st.maxIterations ∧ st.maxIterations ≤ st.iteration
    · left
      rw [processIteration_maxed m st now out md hst ha hd hmax]
    · right
      rw [processIteration_continue m st now out md hst ha hd hmax]

theorem runIterations_log_count :
    ∀ (calls : List IterCall) (m : RalphLoopManager),
      (((runIterations m calls).2.2).filter PersistEvent.isLogAppend).length
        = countActiveCalls m calls
  | [], m => by simp [runIterations, countActiveCalls]
  | c :: cs, m => by
    cases hact : isLoopActive m with
    | false =>
      have hpi := processIteration_inactive m c.now c.output c.metadata hact
      have IH := runIterations_log_count cs m
      simp [runIterations, countActiveCalls, hpi, hact, IH]
    | true =>
      obtain ⟨st, hst, ha⟩ := (isLoopActive_iff m).mp hact
      have IH :=
        runIterations_log_count cs (processIteration m c.now c.output
          c.metadata).2.1
      have hone : (((processIteration m c.now c.output
          c.metadata).2.2).filter PersistEvent.isLogAppend).length = 1 := by
        rcases processIteration_events m st c.now c.output c.metadata hst ha
          with hev | hev <;>
          simp [hev, PersistEvent.isLogAppend]
      simp [runIterations, countActiveCalls, hact, List.filter_append, IH,
        hone]

/-- Claim C3: on every `processIteration` call on an active loop, the
history-log append of the record for the current iteration `N` is the first
persistence event and the only log append of the call, and every snapshot
write performed by the call carries the state with iteration `N + 1` and
comes after the append; consequently — the history log being fed only by the
append events — even if every snapshot write fails, the log gains exactly
one entry per `processIteration` call made on an active loop. -/
theorem log_append_precedes_snapshot_write :
    (∀ (m : RalphLoopManager) (st : RalphLoopState) (now : Nat)
        (out : List Char) (md : IterationMetadata),
        m.state = some st → st.active = true →
        ∃ entry tail,
          (processIteration m now out md).2.2 =
            PersistEvent.logAppend entry :: tail ∧
          entry.iteration = st.iteration ∧
          (∀ ev ∈ tail, ev.isLogAppend = false) ∧
          (∀ s₂, PersistEvent.snapshotWrite s₂ ∈
              (processIteration m now out md).2.2 →
            ∃ st₂, s₂ = some st₂ ∧ st₂.iteration = st.iteration + 1)) ∧
    (∀ (m : RalphLoopManager) (calls : List IterCall),
        (((runIterations m calls).2.2).filter
          PersistEvent.isLogAppend).length = countActiveCalls m calls) := by
  constructor
  · intro m st now out md hst ha
    rcases processIteration_events m st now out md hst ha with hev | hev
    · refine ⟨iterationEntry m st now out md, [PersistEvent.snapshotDelete],
        hev, rfl, ?_, ?_⟩
      · intro ev hmem
        simp at hmem
        simp [hmem, PersistEvent.isLogAppend]
      · intro s₂ hmem
        rw [hev] at hmem
        simp at hmem
    · refine ⟨iterationEntry m st now out md,
        [PersistEvent.snapshotWrite
          (some (continuedState st (iterationEntry m st now out md)))],
        hev, rfl, ?_, ?_⟩
      · intro ev hmem
        simp at hmem
        simp [hmem, PersistEvent.isLogAppend]
      · intro s₂ hmem
        rw [hev] at hmem
        simp at hmem
        exact ⟨continuedState st (iterationEntry m st now out md), hmem, rfl⟩
  · intro m calls
    exact runIterations_log_count calls m

/-- Witness for `log_append_precedes_snapshot_write`: one continuing call on
the `"DONE"`-promise loop, and a two-call run whose first call completes the
loop, so only the first call (the one made on an active loop) contributes a
log line. -/
theorem log_append_precedes_snapshot_write_witness :
    (∃ entry tail,
      (processIteration doneLoopManager 1 "working".data {}).2.2 =
        PersistEvent.logAppend entry :: tail ∧
      entry.iteration = doneLoopState.iteration ∧
      (∀ ev ∈ tail, ev.isLogAppend = false) ∧
      (∀ s₂, PersistEvent.snapshotWrite s₂ ∈
          (processIteration doneLoopManager 1 "working".data {}).2.2 →
        ∃ st₂, s₂ = some st₂ ∧ st₂.iteration = doneLoopState.iteration + 1)) ∧
    (((runIterations doneLoopManager
        [⟨1, "<promise>DONE</promise>".data, {}⟩,
         ⟨2, "late".data, {}⟩]).2.2).filter PersistEvent.isLogAppend).length
      = countActiveCalls doneLoopManager
          [⟨1, "<promise>DONE</promise>".data, {}⟩, ⟨2, "late".data, {}⟩] :=
  ⟨log_append_precedes_snapshot_write.1 doneLoopManager doneLoopState 1
      "working".data {} rfl rfl,
    log_append_precedes_snapshot_write.2 doneLoopManager
      [⟨1, "<promise>DONE</promise>".data, {}⟩, ⟨2, "late".data, {}⟩]⟩

/-- Claim C5, counterexample: with a loop already active (here sitting at
iteration 2), the `ralph_loop` handler given perfectly valid arguments does
NOT create a fresh loop — it answers with the already-active warning and
leaves the existing state (iteration 2, the old prompt) untouched, refuting
the claim that for all valid inputs an active `LoopState` with iteration 1
and empty history is created. -/
theorem startLoop_validation_counterexample :
    (handleRalphLoop midLoopManager 5 (some "other".data) 0 none true
        false).1 = Except.ok RalphLoopReply.alreadyActive ∧
    (handleRalphLoop midLoopManager 5 (some "other".data) 0 none true
        false).2.1 = midLoopManager ∧
    midLoopManager.state.map (fun st => st.iteration) = some 2 ∧
    midLoopManager.state.map (fun st => st.prompt) = some "task".data :=
  ⟨rfl, rfl, by decide, by decide⟩

/-- Claim C5 (amended): the `ralph_loop` entry point fails with a
configuration error — raised to the caller, with no loop created and no
state change — for every prompt that is absent, empty or whitespace-only,
and for every `max_iterations` that is not a non-negative integer; for all
valid inputs, provided no loop is already active, it creates an active
`LoopState` with iteration 1 and empty history (when a loop is already
active it returns the already-active warning and leaves the existing loop
untouched). -/
theorem startLoop_validation (m : RalphLoopManager) (now : Nat)
    (prompt : Option (List Char)) (q : ℚ)
    (promise : Option (List Char)) (g a : Bool) :
    (promptMissing prompt = true →
      handleRalphLoop m now prompt q promise g a =
        (Except.error promptRequiredMessage, m, [])) ∧
    (promptMissing prompt = false → ¬ maxIterationsValid q →
      handleRalphLoop m now prompt q promise g a =
        (Except.error maxIterationsInvalidMessage, m, [])) ∧
    (promptMissing prompt = false → maxIterationsValid q →
      isLoopActive m = true →
      handleRalphLoop m now prompt q promise g a =
        (Except.ok RalphLoopReply.alreadyActive, m, [])) ∧
    (promptMissing prompt = false → maxIterationsValid q →
      isLoopActive m = false →
      ∃ st, handleRalphLoop m now prompt q promise g a =
          (Except.ok (RalphLoopReply.started st),
            { state := some st, lastIterationStartTime := some now },
            [PersistEvent.snapshotWrite (some st)]) ∧
        st.active = true ∧ st.iteration = 1 ∧ st.history = [] ∧
        st.prompt = prompt.getD [] ∧ st.maxIterations = q.num.toNat ∧
        st.completionPromise = promise) := by
  refine ⟨?_, ?_, ?_, ?_⟩
  · intro h₁
    simp [handleRalphLoop, h₁]
  · intro h₁ h₂
    simp [handleRalphLoop, h₁, h₂]
  · intro h₁ h₂ h₃
    simp [handleRalphLoop, h₁, h₂, h₃]
  · intro h₁ h₂ h₃
    refine ⟨(startLoop m now (prompt.getD []) q.num.toNat promise g a).1,
      ?_, rfl, rfl, rfl, rfl, rfl, rfl⟩
    simp [handleRalphLoop, h₁, h₂, h₃, startLoop]

/-- Witness for `startLoop_validation`: a whitespace-only prompt and a
negative `max_iterations` are rejected without touching the manager, a valid
call while the `"DONE"` loop is active is refused, and a valid call on a
fresh manager creates iteration 1 with empty history. -/
theorem startLoop_validation_witness :
    (handleRalphLoop RalphLoopManager.fresh 0 (some "  ".data) 0 none true
        false =
      (Except.error promptRequiredMessage, RalphLoopManager.fresh, [])) ∧
    (handleRalphLoop RalphLoopManager.fresh 0 (some "go".data) (-1) none true
        false =
      (Except.error maxIterationsInvalidMessage, RalphLoopManager.fresh,
        [])) ∧
    (handleRalphLoop doneLoopManager 0 (some "go".data) 0 none true false =
      (Except.ok RalphLoopReply.alreadyActive, doneLoopManager, [])) ∧
    (∃ st, handleRalphLoop RalphLoopManager.fresh 7 (some "go".data) 5 none
          true false =
        (Except.ok (RalphLoopReply.started st),
          { state := some st, lastIterationStartTime := some 7 },
          [PersistEvent.snapshotWrite (some st)]) ∧
      st.active = true ∧ st.iteration = 1 ∧ st.history = [] ∧
      st.prompt = (some "go".data).getD [] ∧
      st.maxIterations = (5 : ℚ).num.toNat ∧ st.completionPromise = none) :=
  ⟨(startLoop_validation RalphLoopManager.fresh 0 (some "  ".data) 0 none
      true false).1 (by decide),
    (startLoop_validation RalphLoopManager.fresh 0 (some "go".data) (-1) none
      true false).2.1 (by decide) (by decide),
    (startLoop_validation doneLoopManager 0 (some "go".data) 0 none true
      false).2.2.1 (by decide) (by decide) rfl,
    (startLoop_validation RalphLoopManager.fresh 7 (some "go".data) 5 none
      true false).2.2.2 (by decide) (by decide) rfl⟩

/-! Counting lemmas about the `errorFrequency` map. -/

theorem countOf_bumpCount_self :
    ∀ (m : List (List Char × Nat)) (s : List Char),
      countOf (bumpCount m s) s = countOf m s + 1
  | [], s => by simp [bumpCount, countOf]
  | (k, n) :: rest, s => by
    by_cases hk : k = s
    · subst hk
      simp [bumpCount, countOf]
    · simp [bumpCount, countOf, hk, countOf_bumpCount_self rest s]

theorem countOf_bumpCount_ne :
    ∀ (m : List (List Char × Nat)) (k s : List Char), k ≠ s →
      countOf (bumpCount m k) s = countOf m s
  | [], k, s, h => by simp [bumpCount, countOf, h]
  | (k₀, n) :: rest, k, s, h => by
    by_cases hk : k₀ = k
    · subst hk
      simp [bumpCount, countOf, h]
    · by_cases hs : k₀ = s
      · have hsk : s ≠ k := fun hh => h hh.symm
        subst hs
        simp [bumpCount, countOf, hsk]
      · simp [bumpCount, countOf, hk, hs, countOf_bumpCount_ne rest k s h]

theorem countOf_foldl_bumpCount :
    ∀ (sigs : List (List Char)) (m : List (List Char × Nat))
      (s : List Char),
      countOf (sigs.foldl bumpCount m) s = countOf m s + sigs.count s
  | [], m, s => by simp
  | a :: rest, m, s => by
    rw [List.foldl_cons, countOf_foldl_bumpCount rest (bumpCount m a) s]
    by_cases ha : a = s
    · subst ha
      rw [countOf_bumpCount_self]
      simp [List.count_cons]
      omega
    · rw [countOf_bumpCount_ne m a s ha]
      simp [List.count_cons, ha]

theorem errorFrequency_eq_foldl :
    ∀ (h : List RalphIterationHistoryEntry) (m : List (List Char × Nat)),
      h.foldl
        (fun m entry =>
          (entryErrors entry).foldl
            (fun m e => bumpCount m (normalizeError e)) m) m
        = (allSignatures h).foldl bumpCount m
  | [], m => by simp [allSignatures]
  | e :: rest, m => by
    rw [List.foldl_cons, errorFrequency_eq_foldl rest]
    have hmap : (entryErrors e).foldl
        (fun m x => bumpCount m (normalizeError x)) m
        = ((entryErrors e).map normalizeError).foldl bumpCount m := by
      rw [List.foldl_map]
    have hsig : allSignatures (e :: rest)
        = (entryErrors e).map normalizeError ++ allSignatures rest := by
      simp [allSignatures]
    rw [hmap, hsig, List.foldl_append]

theorem countOf_errorFrequency (h : List RalphIterationHistoryEntry)
    (s : List Char) : countOf (errorFrequency h) s = sigCount s h := by
  unfold errorFrequency sigCount
  rw [errorFrequency_eq_foldl, countOf_foldl_bumpCount]
  simp [countOf]

theorem countOf_mem :
    ∀ (m : List (List Char × Nat)) (s : List Char),
      0 < countOf m s → (s, countOf m s) ∈ m
  | [], s, h => by simp [countOf] at h
  | (k, n) :: rest, s, h => by
    by_cases hk : k = s
    · subst hk
      simp [countOf] at h ⊢
    · simp [countOf, hk] at h ⊢
      exact Or.inr (countOf_mem rest s h)

theorem mem_repeatedErrorsOf (h : List RalphIterationHistoryEntry)
    (s : List Char) (h3 : 3 ≤ sigCount s h) : s ∈ repeatedErrorsOf h := by
  have hmem : (s, sigCount s h) ∈ errorFrequency h := by
    have := countOf_mem (errorFrequency h) s
      (by rw [countOf_errorFrequency]; omega)
    rwa [countOf_errorFrequency] at this
  unfold repeatedErrorsOf
  refine List.mem_map.mpr ⟨(s, sigCount s h), ?_, rfl⟩
  refine List.mem_filter.mpr ⟨hmem, ?_⟩
  simpa using h3

theorem analyzeProgress_of_repeated (h : List RalphIterationHistoryEntry)
    (h3 : 3 ≤ h.length) (s : List Char) (hs : s ∈ repeatedErrorsOf h) :
    s ∈ (analyzeProgress h).repeatedErrors ∧
      (analyzeProgress h).stagnationDetected = true := by
  have hlt : ¬ h.length < 3 := by omega
  have hne : (repeatedErrorsOf h).isEmpty = false := by
    cases hr : repeatedErrorsOf h with
    | nil => rw [hr] at hs; simp at hs
    | cons a l => simp [List.isEmpty]
  constructor
  · simpa [analyzeProgress, hlt] using hs
  · simp [analyzeProgress, hlt, hne]

theorem sigCount_eq_sum (s : List Char) :
    ∀ (h : List RalphIterationHistoryEntry),
      sigCount s h = (h.map (sigCountEntry s)).sum
  | [] => by simp [sigCount, allSignatures]
  | e :: rest => by
    unfold sigCount allSignatures
    rw [List.flatMap_cons, List.count_append, List.map_cons, List.sum_cons]
    have := sigCount_eq_sum s rest
    unfold sigCount allSignatures at this
    rw [this]
    rfl

theorem sum_le_of_sublist {l₁ l₂ : List Nat} (h : l₁.Sublist l₂) :
    l₁.sum ≤ l₂.sum := by
  induction h with
  | slnil => simp
  | cons a _ ih => simp; omega
  | cons₂ a _ ih => simp; omega

theorem one_le_sigCountEntry (s : List Char)
    (r : RalphIterationHistoryEntry) (e : List Char)
    (he : e ∈ entryErrors r) (heq : normalizeError e = s) :
    1 ≤ sigCountEntry s r := by
  have hmem : s ∈ (entryErrors r).map normalizeError :=
    List.mem_map.mpr ⟨e, he, heq⟩
  by_contra hlt
  have h0 : sigCountEntry s r = 0 := by omega
  unfold sigCountEntry at h0
  exact (List.count_eq_zero.mp h0) hmem

/-- Claim C7: the error strings `"Error at /a/b.js:10:4"` and
`"Error at /x/y.js:99:1"` normalize to the same signature (path and
line-column tokens collapse to the placeholder); and whenever a signature
occurs in the error lists of three distinct records of a history of length
`≥ 3`, `analyzeProgress` reports stagnation and includes the signature in
`repeatedErrors`.  (Three distinct records are rendered as a three-element
sublist of the history.) -/
theorem error_normalization_repeated_stagnation :
    normalizeError "Error at /a/b.js:10:4".data
        = normalizeError "Error at /x/y.js:99:1".data ∧
    (∀ (h : List RalphIterationHistoryEntry)
        (r₁ r₂ r₃ : RalphIterationHistoryEntry) (s : List Char),
        3 ≤ h.length → [r₁, r₂, r₃].Sublist h →
        (∃ e ∈ entryErrors r₁, normalizeError e = s) →
        (∃ e ∈ entryErrors r₂, normalizeError e = s) →
        (∃ e ∈ entryErrors r₃, normalizeError e = s) →
        (analyzeProgress h).stagnationDetected = true ∧
          s ∈ (analyzeProgress h).repeatedErrors) := by
  constructor
  · decide
  · intro h r₁ r₂ r₃ s h3 hsl he₁ he₂ he₃
    obtain ⟨e₁, he₁m, he₁n⟩ := he₁
    obtain ⟨e₂, he₂m, he₂n⟩ := he₂
    obtain ⟨e₃, he₃m, he₃n⟩ := he₃
    have hc₁ := one_le_sigCountEntry s r₁ e₁ he₁m he₁n
    have hc₂ := one_le_sigCountEntry s r₂ e₂ he₂m he₂n
    have hc₃ := one_le_sigCountEntry s r₃ e₃ he₃m he₃n
    have hsum : ([r₁, r₂, r₃].map (sigCountEntry s)).sum
        ≤ (h.map (sigCountEntry s)).sum :=
      sum_le_of_sublist (hsl.map (sigCountEntry s))
    have hcount : 3 ≤ sigCount s h := by
      rw [sigCount_eq_sum]
      simp at hsum
      omega
    have hrep := mem_repeatedErrorsOf h s hcount
    obtain ⟨hmem, hstag⟩ := analyzeProgress_of_repeated h h3 s hrep
    exact ⟨hstag, hmem⟩

/-- Witness for `error_normalization_repeated_stagnation`: three records each
reporting one error at a different path and position; all three normalize to
the same signature, which is reported with stagnation. -/
theorem error_normalization_repeated_stagnation_witness :
    (analyzeProgress
        [errorEntry "Error at /a/b.js:10:4".data,
         errorEntry "Error at /x/y.js:99:1".data,
         errorEntry "Error at /c/d.js:1:2".data]).stagnationDetected
      = true ∧
    normalizeError "Error at /a/b.js:10:4".data ∈
      (analyzeProgress
        [errorEntry "Error at /a/b.js:10:4".data,
         errorEntry "Error at /x/y.js:99:1".data,
         errorEntry "Error at /c/d.js:1:2".data]).repeatedErrors :=
  error_normalization_repeated_stagnation.2
    [errorEntry "Error at /a/b.js:10:4".data,
     errorEntry "Error at /x/y.js:99:1".data,
     errorEntry "Error at /c/d.js:1:2".data]
    (errorEntry "Error at /a/b.js:10:4".data)
    (errorEntry "Error at /x/y.js:99:1".data)
    (errorEntry "Error at /c/d.js:1:2".data)
    (normalizeError "Error at /a/b.js:10:4".data)
    (by decide) (List.Sublist.refl _)
    ⟨"Error at /a/b.js:10:4".data, by decide, rfl⟩
    ⟨"Error at /x/y.js:99:1".data, by decide, by decide⟩
    ⟨"Error at /c/d.js:1:2".data, by decide, by decide⟩

/-- Claim C10: the repeated-error threshold counts total occurrences of a
normalized signature, not distinct iterations — if a single record's error
list holds three strings normalizing to the same signature and no other
record reports any error, `analyzeProgress` still reports the signature in
`repeatedErrors` and sets `stagnationDetected`. -/
theorem repeated_errors_count_occurrences
    (h : List RalphIterationHistoryEntry) (r : RalphIterationHistoryEntry)
    (e₁ e₂ e₃ s : List Char) (h3 : 3 ≤ h.length) (hr : r ∈ h)
    (herr : r.errors = some [e₁, e₂, e₃])
    (hn₁ : normalizeError e₁ = s) (hn₂ : normalizeError e₂ = s)
    (hn₃ : normalizeError e₃ = s)
    (_hothers : ∀ r₂ ∈ h, r₂ = r ∨ entryErrors r₂ = []) :
    s ∈ (analyzeProgress h).repeatedErrors ∧
      (analyzeProgress h).stagnationDetected = true := by
  have hentry : sigCountEntry s r = 3 := by
    simp [sigCountEntry, entryErrors, herr, hn₁, hn₂, hn₃, List.count_cons]
  have hcount : 3 ≤ sigCount s h := by
    rw [sigCount_eq_sum]
    have hmem : sigCountEntry s r ∈ h.map (sigCountEntry s) :=
      List.mem_map_of_mem (sigCountEntry s) hr
    have := List.le_sum_of_mem hmem
    omega
  exact analyzeProgress_of_repeated h h3 s (mem_repeatedErrorsOf h s hcount)

/-- Witness for `repeated_errors_count_occurrences`: one record with three
errors that share a signature, two error-free records. -/
theorem repeated_errors_count_occurrences_witness :
    normalizeError "Error at /a/b.js:10:4".data ∈
      (analyzeProgress
        [tripleErrorEntry, plainEntry 300, plainEntry 900]).repeatedErrors ∧
    (analyzeProgress
      [tripleErrorEntry, plainEntry 300, plainEntry 900]).stagnationDetected
      = true :=
  repeated_errors_count_occurrences
    [tripleErrorEntry, plainEntry 300, plainEntry 900] tripleErrorEntry
    "Error at /a/b.js:10:4".data "Error at /x/y.js:99:1".data
    "Error at /q/r.js:3:9".data (normalizeError "Error at /a/b.js:10:4".data)
    (by decide) (by decide) rfl rfl (by decide) (by decide) (by decide)

/-! Lemmas for the output-shape stagnation check and the convergence rate. -/

theorem recentLengths_length (h : List RalphIterationHistoryEntry)
    (h3 : 3 ≤ h.length) : (recentLengths h).length = 3 := by
  simp [recentLengths]
  omega

/-- Claim C8, counterexample: a history whose last three output lengths are
`120, 109, 120` satisfies the claim's premise — every length is within 10%
of the first of the three (`|109 - 120| = 11 < 12`) and no completion was
detected — yet the analyzer reports no stagnation at all, because the source
takes the 10% tolerance of each length itself (`11 < 109/10` fails), not of
the first. -/
theorem output_length_stagnation_counterexample :
    (∀ len ∈ recentLengths [plainEntry 120, plainEntry 109, plainEntry 120],
      ratAbs ((len : ℚ) -
          ((recentLengths
            [plainEntry 120, plainEntry 109, plainEntry 120]).headI : ℚ)) <
        (((recentLengths
            [plainEntry 120, plainEntry 109, plainEntry 120]).headI : ℚ))
          * (1 / 10)) ∧
    (∀ c ∈ recentCompletions [plainEntry 120, plainEntry 109, plainEntry 120],
      c = false) ∧
    (analyzeProgress
      [plainEntry 120, plainEntry 109, plainEntry 120]).stagnationDetected
      = false ∧
    (analyzeProgress
      [plainEntry 120, plainEntry 109, plainEntry 120]).stagnationReason
      = none := by
  have hlens : recentLengths [plainEntry 120, plainEntry 109, plainEntry 120]
      = [120, 109, 120] := by decide
  have herr : repeatedErrorsOf
      [plainEntry 120, plainEntry 109, plainEntry 120] = [] := by decide
  have hallS : allSameLength [120, 109, 120] = false := by
    cases hb : allSameLength [120, 109, 120] with
    | false => rfl
    | true =>
      exfalso
      unfold allSameLength at hb
      have h109 := List.all_eq_true.mp hb 109 (by simp)
      simp only [decide_eq_true_eq] at h109
      norm_num [ratAbs] at h109
  have hls : lengthStagnation
      [plainEntry 120, plainEntry 109, plainEntry 120] = false := by
    unfold lengthStagnation
    rw [hlens, hallS]
    simp
  refine ⟨?_, by decide, ?_, ?_⟩
  · intro len hmem
    rw [hlens] at hmem
    rw [hlens]
    simp only [List.headI]
    simp only [List.mem_cons, List.not_mem_nil, or_false] at hmem
    rcases hmem with rfl | rfl | rfl <;> norm_num [ratAbs]
  · simp [analyzeProgress, hls, herr]
  · simp [analyzeProgress, hls, herr]

/-- Claim C8 (amended): for every history of length `≥ 3`, if each of the
last 3 output lengths differs from the first of those three by strictly less
than 10% OF THE RECORD'S OWN LENGTH, and none of the three records has
`completionDetected`, then the analyzer reports stagnation with the
output-shape reason and appends the corresponding suggested actions (after
any repeated-error suggestions); if any of the three records has
`completionDetected = true`, the trigger does not fire and the metrics are
exactly what the repeated-error pass alone produces. -/
theorem output_length_stagnation_trigger
    (h : List RalphIterationHistoryEntry) (h3 : 3 ≤ h.length) :
    ((∀ len ∈ recentLengths h,
        ratAbs ((len : ℚ) - ((recentLengths h).headI : ℚ)) <
          (len : ℚ) * (1 / 10)) →
      (∀ c ∈ recentCompletions h, c = false) →
      (analyzeProgress h).stagnationDetected = true ∧
      (analyzeProgress h).stagnationReason = some lengthStagnationMessage ∧
      (analyzeProgress h).suggestedActions =
        (if (repeatedErrorsOf h).isEmpty then []
          else repeatedStagnationActions) ++ lengthStagnationActions) ∧
    ((∃ c ∈ recentCompletions h, c = true) →
      (analyzeProgress h).stagnationDetected
          = !(repeatedErrorsOf h).isEmpty ∧
      (analyzeProgress h).stagnationReason =
        (if (repeatedErrorsOf h).isEmpty then none
          else some (repeatedStagnationMessage (repeatedErrorsOf h))) ∧
      (analyzeProgress h).suggestedActions =
        (if (repeatedErrorsOf h).isEmpty then []
          else repeatedStagnationActions)) := by
  have hlt : ¬ h.length < 3 := by omega
  constructor
  · intro hlen hcomp
    have hallS : allSameLength (recentLengths h) = true := by
      unfold allSameLength
      rw [List.all_eq_true]
      intro len hmem
      simpa using hlen len hmem
    have hcompS : (recentCompletions h).all (fun c => !c) = true := by
      rw [List.all_eq_true]
      intro c hc
      simp [hcomp c hc]
    have hls : lengthStagnation h = true := by
      unfold lengthStagnation
      rw [recentLengths_length h h3]
      simp [hallS, hcompS]
    cases hre : (repeatedErrorsOf h).isEmpty <;>
      simp [analyzeProgress, hlt, hls, hre]
  · rintro ⟨c, hc, hct⟩
    have hcompS : (recentCompletions h).all (fun c => !c) = false := by
      cases hall : (recentCompletions h).all (fun c => !c) with
      | false => rfl
      | true =>
        have := List.all_eq_true.mp hall c hc
        rw [hct] at this
        simp at this
    have hls : lengthStagnation h = false := by
      unfold lengthStagnation
      simp [hcompS]
    cases hre : (repeatedErrorsOf h).isEmpty <;>
      simp [analyzeProgress, hlt, hls, hre]

/-- Witness for `output_length_stagnation_trigger`: equal output lengths with
no completion fire the output-shape trigger, and the same history with the
last record marked completed suppresses it. -/
theorem output_length_stagnation_trigger_witness :
    ((analyzeProgress
        [plainEntry 100, plainEntry 100, plainEntry 100]).stagnationDetected
        = true ∧
      (analyzeProgress
        [plainEntry 100, plainEntry 100, plainEntry 100]).stagnationReason
        = some lengthStagnationMessage ∧
      (analyzeProgress
        [plainEntry 100, plainEntry 100, plainEntry 100]).suggestedActions =
        (if (repeatedErrorsOf
            [plainEntry 100, plainEntry 100, plainEntry 100]).isEmpty then []
          else repeatedStagnationActions) ++ lengthStagnationActions) ∧
    ((analyzeProgress [plainEntry 100, plainEntry 100,
        { plainEntry 100 with
          completionDetected := true }]).stagnationDetected
        = !(repeatedErrorsOf [plainEntry 100, plainEntry 100,
            { plainEntry 100 with completionDetected := true }]).isEmpty) :=
  ⟨(output_length_stagnation_trigger
      [plainEntry 100, plainEntry 100, plainEntry 100] (by decide)).1
      (by
        intro len hmem
        have hl : recentLengths [plainEntry 100, plainEntry 100,
            plainEntry 100] = [100, 100, 100] := by decide
        rw [hl] at hmem
        rw [hl]
        simp only [List.headI]
        simp only [List.mem_cons, List.not_mem_nil, or_false] at hmem
        rcases hmem with rfl | rfl | rfl <;> norm_num [ratAbs])
      (by decide),
    ((output_length_stagnation_trigger
      [plainEntry 100, plainEntry 100,
        { plainEntry 100 with completionDetected := true }] (by decide)).2
      ⟨true, by decide, rfl⟩).1⟩

theorem totalErrorCount_foldl :
    ∀ (h : List RalphIterationHistoryEntry) (n : Nat),
      h.foldl (fun n entry => n + (entryErrors entry).length) n
        = n + (allSignatures h).length
  | [], n => by simp [allSignatures]
  | e :: rest, n => by
    rw [List.foldl_cons, totalErrorCount_foldl rest]
    simp [allSignatures]
    omega

theorem totalErrorCount_eq (h : List RalphIterationHistoryEntry) :
    totalErrorCount h = (allSignatures h).length := by
  unfold totalErrorCount
  rw [totalErrorCount_foldl]
  simp

theorem freqKeys_bumpCount :
    ∀ (m : List (List Char × Nat)) (k : List Char),
      freqKeys (bumpCount m k)
        = if k ∈ freqKeys m then freqKeys m else freqKeys m ++ [k]
  | [], k => by simp [bumpCount, freqKeys]
  | (k₀, n) :: rest, k => by
    by_cases hk : k₀ = k
    · subst hk
      simp [bumpCount, freqKeys]
    · have IH := freqKeys_bumpCount rest k
      have hne : ¬ k = k₀ := fun hh => hk hh.symm
      by_cases hmem : k ∈ freqKeys rest
      · simp only [freqKeys] at IH hmem ⊢
        simp only [bumpCount, if_neg hk, List.map_cons]
        rw [IH, if_pos hmem, if_pos (List.mem_cons.mpr (Or.inr hmem))]
      · simp only [freqKeys] at IH hmem ⊢
        simp only [bumpCount, if_neg hk, List.map_cons]
        rw [IH, if_neg hmem, if_neg (fun hcon => by
          rcases List.mem_cons.mp hcon with hcon | hcon
          · exact hne hcon
          · exact hmem hcon)]
        exact (List.cons_append _ _ _).symm

theorem freqKeys_foldl :
    ∀ (sigs : List (List Char)) (m : List (List Char × Nat)),
      (freqKeys m).Nodup →
      (freqKeys (sigs.foldl bumpCount m)).Nodup ∧
      (freqKeys (sigs.foldl bumpCount m)).toFinset
        = (freqKeys m).toFinset ∪ sigs.toFinset
  | [], m, hnd => ⟨hnd, by simp⟩
  | s :: rest, m, hnd => by
    rw [List.foldl_cons]
    have hbk := freqKeys_bumpCount m s
    have hnd₂ : (freqKeys (bumpCount m s)).Nodup := by
      by_cases hmem : s ∈ freqKeys m
      · rw [hbk, if_pos hmem]
        exact hnd
      · rw [hbk, if_neg hmem]
        exact ((List.perm_append_singleton s (freqKeys m)).nodup_iff).mpr
          (List.Nodup.cons hmem hnd)
    have hfin : (freqKeys (bumpCount m s)).toFinset
        = insert s (freqKeys m).toFinset := by
      by_cases hmem : s ∈ freqKeys m
      · rw [hbk, if_pos hmem]
        exact (Finset.insert_eq_self.mpr (List.mem_toFinset.mpr hmem)).symm
      · rw [hbk, if_neg hmem]
        ext x
        simp [List.toFinset_append, or_comm]
    obtain ⟨hnd₃, hfin₃⟩ := freqKeys_foldl rest (bumpCount m s) hnd₂
    refine ⟨hnd₃, ?_⟩
    rw [hfin₃, hfin]
    ext x
    simp [or_assoc]

theorem errorFrequency_length (h : List RalphIterationHistoryEntry) :
    (errorFrequency h).length = distinctSignatureCount h := by
  have hfold : errorFrequency h = (allSignatures h).foldl bumpCount [] := by
    unfold errorFrequency
    rw [errorFrequency_eq_foldl]
  obtain ⟨hnd, hfin⟩ :=
    freqKeys_foldl (allSignatures h) [] (by simp [freqKeys])
  have hlen : (errorFrequency h).length
      = (freqKeys (errorFrequency h)).length := by
    simp [freqKeys]
  rw [hlen, ← List.toFinset_card_of_nodup (hfold ▸ hnd), hfold, hfin]
  unfold distinctSignatureCount
  congr 1

/-! Lemmas about the binary64 model of the zero-error estimate. -/

theorem bitLenAux_zero (fuel : ℕ) : bitLenAux fuel 0 = 0 := by
  cases fuel <;> simp [bitLenAux]

theorem bitLenAux_spec :
    ∀ (fuel n : ℕ), 0 < n → n ≤ fuel →
      2 ^ (bitLenAux fuel n - 1) ≤ n ∧ n < 2 ^ bitLenAux fuel n := by
  intro fuel
  induction fuel with
  | zero => intro n hn hf; omega
  | succ fuel ih =>
    intro n hn hf
    simp only [bitLenAux]
    rw [if_neg (by omega : ¬ n = 0)]
    by_cases h1 : n = 1
    · subst h1
      rw [show (1 : ℕ) / 2 = 0 from rfl, bitLenAux_zero]
      norm_num
    · have h2 : 0 < n / 2 := by omega
      have h3 : n / 2 ≤ fuel := by omega
      obtain ⟨ihl, ihh⟩ := ih (n / 2) h2 h3
      have hk1 : 1 ≤ bitLenAux fuel (n / 2) := by
        by_contra hk
        push_neg at hk
        have hz : bitLenAux fuel (n / 2) = 0 := by omega
        rw [hz] at ihh
        simp at ihh
        omega
      set k := bitLenAux fuel (n / 2)
      have hpk : 2 ^ k = 2 * 2 ^ (k - 1) := by
        have he : k = (k - 1) + 1 := by omega
        conv_lhs => rw [he]
        rw [pow_succ]
        ring
      have hpk1 : 2 ^ (k + 1) = 2 * 2 ^ k := by
        rw [pow_succ]
        ring
      constructor
      · simp only [Nat.add_sub_cancel]
        omega
      · omega

theorem bitLen_spec (b : ℕ) (hb : 0 < b) :
    2 ^ (bitLen b - 1) ≤ b ∧ b < 2 ^ bitLen b :=
  bitLenAux_spec b b hb (le_refl b)

theorem bitLen_le_of_lt (b k : ℕ) (h : b < 2 ^ k) : bitLen b ≤ k := by
  rcases Nat.eq_zero_or_pos b with rfl | hb
  · simp [bitLen, bitLenAux]
  · by_contra hlt
    push_neg at hlt
    obtain ⟨hlow, -⟩ := bitLen_spec b hb
    have hk : 2 ^ k ≤ 2 ^ (bitLen b - 1) :=
      Nat.pow_le_pow_right (by norm_num) (by omega)
    omega

theorem lt_bitLen_of_le (b k : ℕ) (h : 2 ^ k ≤ b) : k < bitLen b := by
  have hb : 0 < b := lt_of_lt_of_le (by positivity) h
  obtain ⟨-, hhigh⟩ := bitLen_spec b hb
  exact (Nat.pow_lt_pow_iff_right (by norm_num)).mp (lt_of_le_of_lt h hhigh)

theorem rneRecip_spec (b : ℕ) (hb : 0 < b) :
    (rneRecip b).2 = bitLen b + 52 ∧
    2 ^ 52 ≤ (rneRecip b).1 ∧ (rneRecip b).1 ≤ 2 ^ 53 ∧
    2 ^ (bitLen b + 53) ≤ 2 * ((rneRecip b).1 * b) + b ∧
    2 * ((rneRecip b).1 * b) ≤ 2 ^ (bitLen b + 53) + b := by
  obtain ⟨hlow, hhigh⟩ := bitLen_spec b hb
  have hβ1 : 1 ≤ bitLen b := by
    by_contra h0
    push_neg at h0
    have hz : bitLen b = 0 := by omega
    rw [hz] at hhigh
    simp at hhigh
    omega
  obtain ⟨q, r, hq, hr⟩ : ∃ q r, q = 2 ^ (bitLen b + 52) / b
      ∧ r = 2 ^ (bitLen b + 52) % b :=
    ⟨_, _, rfl, rfl⟩
  have hqr : b * q + r = 2 ^ (bitLen b + 52) := by
    rw [hq, hr]
    exact Nat.div_add_mod _ _
  have hrb : r < b := by
    rw [hr]
    exact Nat.mod_lt _ hb
  have hm : (rneRecip b).1 = rneRound b q r := by
    simp only [rneRecip]
    rw [hq, hr]
  have hs : (rneRecip b).2 = bitLen b + 52 := by
    simp only [rneRecip]
  have hps : 2 ^ (bitLen b + 52) = 2 ^ 52 * 2 ^ bitLen b := by
    rw [pow_add]
    ring
  have hps1 : 2 ^ (bitLen b + 53) = 2 * 2 ^ (bitLen b + 52) := by
    have he : bitLen b + 53 = (bitLen b + 52) + 1 := by omega
    rw [he, pow_succ]
    ring
  have hq_low : 2 ^ 52 ≤ q := by
    rw [hq, Nat.le_div_iff_mul_le hb]
    calc (2 : ℕ) ^ 52 * b ≤ 2 ^ 52 * 2 ^ bitLen b :=
          Nat.mul_le_mul_left _ (le_of_lt hhigh)
      _ = 2 ^ (bitLen b + 52) := hps.symm
  have hqb : q * b ≤ 2 ^ (bitLen b + 52) := by
    rw [hq]
    exact Nat.div_mul_le_self _ _
  have hbig : 2 ^ (bitLen b + 52) ≤ b * 2 ^ 53 := by
    calc (2 : ℕ) ^ (bitLen b + 52) = 2 ^ (bitLen b - 1) * 2 ^ 53 := by
          have he : bitLen b + 52 = (bitLen b - 1) + 53 := by omega
          rw [he, pow_add]
      _ ≤ b * 2 ^ 53 := Nat.mul_le_mul_right _ hlow
  have hbq : b * q = q * b := by ring
  have hq_high : q ≤ 2 ^ 53 := by
    by_contra hcon
    push_neg at hcon
    have h1 : (2 ^ 53 + 1) * b ≤ q * b := Nat.mul_le_mul_right _ (by omega)
    have h2 : (2 ^ 53 + 1) * b = 2 ^ 53 * b + b := by ring
    have h3 : b * 2 ^ 53 = 2 ^ 53 * b := by ring
    omega
  rw [hm, hs]
  unfold rneRound
  by_cases hcond : b < 2 * r ∨ (2 * r = b ∧ q % 2 = 1)
  · rw [if_pos hcond]
    have hqlt : q < 2 ^ 53 := by
      rcases Nat.lt_or_ge q (2 ^ 53) with h | h
      · exact h
      · exfalso
        have hq53 : q = 2 ^ 53 := le_antisymm hq_high h
        have h3 : b * 2 ^ 53 = 2 ^ 53 * b := by ring
        have hqb2 : q * b = 2 ^ 53 * b := by rw [hq53]
        have hr0 : r = 0 := by omega
        rw [hr0] at hcond
        rcases hcond with h | ⟨h, -⟩ <;> omega
    have hexp : (q + 1) * b = q * b + b := by ring
    have hble : b ≤ 2 * r := by
      rcases hcond with h | ⟨h, -⟩ <;> omega
    refine ⟨rfl, by omega, by omega, ?_, ?_⟩
    · rw [hps1, hexp]
      omega
    · rw [hps1, hexp]
      omega
  · rw [if_neg hcond]
    push_neg at hcond
    obtain ⟨h2r, -⟩ := hcond
    refine ⟨rfl, hq_low, hq_high, ?_, ?_⟩
    · rw [hps1]
      omega
    · rw [hps1]
      omega

theorem float64ZeroErrorEstimate_bounds (n : ℕ) (hn1 : 1 ≤ n)
    (hn : n ≤ 2 ^ 49) :
    n ≤ float64ZeroErrorEstimate n ∧ float64ZeroErrorEstimate n ≤ n + 1 := by
  obtain ⟨m₁, s₁, hm₁def, hs₁def⟩ :
      ∃ m s, (rneRecip (2 * n)).1 = m ∧ (rneRecip (2 * n)).2 = s :=
    ⟨_, _, rfl, rfl⟩
  obtain ⟨β₁, hβ₁def⟩ : ∃ c, bitLen (2 * n) = c := ⟨_, rfl⟩
  obtain ⟨hs₁eq, hm₁low, hm₁high, hE₁low, hE₁high⟩ :=
    rneRecip_spec (2 * n) (by omega)
  simp only [hm₁def, hs₁def, hβ₁def] at hs₁eq hm₁low hm₁high hE₁low hE₁high
  have hm₁pos : 0 < m₁ := lt_of_lt_of_le (by positivity) hm₁low
  obtain ⟨m₂, s₂, hm₂def, hs₂def⟩ :
      ∃ m s, (rneRecip m₁).1 = m ∧ (rneRecip m₁).2 = s :=
    ⟨_, _, rfl, rfl⟩
  obtain ⟨β₂, hβ₂def⟩ : ∃ c, bitLen m₁ = c := ⟨_, rfl⟩
  obtain ⟨hs₂eq, hm₂low, hm₂high, hE₂low, hE₂high⟩ :=
    rneRecip_spec m₁ hm₁pos
  simp only [hm₂def, hs₂def, hβ₂def] at hs₂eq hm₂low hm₂high hE₂low hE₂high
  have hβ₁le : β₁ ≤ 51 := by
    rw [← hβ₁def]
    apply bitLen_le_of_lt
    calc 2 * n ≤ 2 * 2 ^ 49 := by omega
      _ < 2 ^ 51 := by norm_num
  have hβ₂low : 52 < β₂ := by
    rw [← hβ₂def]
    exact lt_bitLen_of_le _ _ hm₁low
  have hβ₂high : β₂ ≤ 54 := by
    rw [← hβ₂def]
    apply bitLen_le_of_lt
    calc m₁ ≤ 2 ^ 53 := hm₁high
      _ < 2 ^ 54 := by norm_num
  have hnotle : ¬ (s₂ + 1 ≤ s₁) := by omega
  obtain ⟨D, hDdef⟩ : ∃ c, 2 ^ (s₂ + 1 - s₁) = c := ⟨_, rfl⟩
  have hD2 : 2 ≤ D := by
    rw [← hDdef]
    calc (2 : ℕ) = 2 ^ 1 := rfl
      _ ≤ 2 ^ (s₂ + 1 - s₁) := Nat.pow_le_pow_right (by norm_num) (by omega)
  have hDs : D * 2 ^ s₁ = 2 ^ (s₂ + 1) := by
    rw [← hDdef, ← pow_add]
    have he : s₂ + 1 - s₁ + s₁ = s₂ + 1 := by omega
    rw [he]
  have hSe₁ : β₁ + 53 = s₁ + 1 := by omega
  have hSe₂ : β₂ + 53 = s₂ + 1 := by omega
  rw [hSe₁] at hE₁low hE₁high
  rw [hSe₂] at hE₂low hE₂high
  have hp1 : 2 ^ (s₁ + 1) = 2 * 2 ^ s₁ := by
    rw [pow_succ]
    ring
  have hq1 : m₁ * (2 * n) = 2 * (m₁ * n) := by ring
  rw [hp1, hq1] at hE₁low hE₁high
  have hK₁low : 2 ^ s₁ ≤ 2 * (m₁ * n) + n := by omega
  have hK₁high : 2 * (m₁ * n) ≤ 2 ^ s₁ + n := by omega
  have hnm : n < m₁ := by
    have h52 : (2 : ℕ) ^ 49 < 2 ^ 52 := by norm_num
    omega
  have hDn : n * D < m₁ * D :=
    (Nat.mul_lt_mul_right (by omega)).mpr hnm
  have hmD : m₁ ≤ m₁ * D := Nat.le_mul_of_pos_right _ (by omega)
  have hsum : D * n + m₁ < m₁ * D + m₁ * D := by
    have h1 : D * n < m₁ * D := by
      calc D * n = n * D := by ring
        _ < m₁ * D := hDn
    exact add_lt_add_of_lt_of_le h1 hmD
  have hb₂ : 2 * m₁ * m₂ ≤ 2 * m₁ * ((n + 1) * D) := by
    calc 2 * m₁ * m₂ = 2 * (m₂ * m₁) := by ring
      _ ≤ 2 ^ (s₂ + 1) + m₁ := hE₂high
      _ = D * 2 ^ s₁ + m₁ := by rw [hDs]
      _ ≤ D * (2 * (m₁ * n) + n) + m₁ :=
          Nat.add_le_add_right (Nat.mul_le_mul_left _ hK₁low) _
      _ = 2 * (m₁ * n) * D + (D * n + m₁) := by ring
      _ ≤ 2 * (m₁ * n) * D + (m₁ * D + m₁ * D) :=
          Nat.add_le_add_left (le_of_lt hsum) _
      _ = 2 * m₁ * ((n + 1) * D) := by ring
  have hupper : m₂ ≤ (n + 1) * D :=
    Nat.le_of_mul_le_mul_left hb₂ (by omega)
  have ha₂ : 2 * m₁ * (n * D) < 2 * m₁ * (m₂ + D) := by
    have step : 2 * m₁ * (n * D) ≤ 2 * (m₂ * m₁) + m₁ + D * n := by
      calc 2 * m₁ * (n * D) = D * (2 * (m₁ * n)) := by ring
        _ ≤ D * (2 ^ s₁ + n) := Nat.mul_le_mul_left _ hK₁high
        _ = D * 2 ^ s₁ + D * n := by ring
        _ = 2 ^ (s₂ + 1) + D * n := by rw [hDs]
        _ ≤ 2 * (m₂ * m₁) + m₁ + D * n := by omega
    calc 2 * m₁ * (n * D) ≤ 2 * (m₂ * m₁) + m₁ + D * n := step
      _ = 2 * (m₂ * m₁) + (D * n + m₁) := by ring
      _ < 2 * (m₂ * m₁) + (m₁ * D + m₁ * D) :=
          Nat.add_lt_add_left hsum _
      _ = 2 * m₁ * (m₂ + D) := by ring
  have hlower : n * D < m₂ + D := Nat.lt_of_mul_lt_mul_left ha₂
  have hval : float64ZeroErrorEstimate n = (m₂ + D - 1) / D := by
    unfold float64ZeroErrorEstimate
    simp only [hm₁def, hs₁def, hm₂def, hs₂def]
    rw [if_neg hnotle, hDdef]
  rw [hval]
  have hDpos : 0 < D := by omega
  constructor
  · rw [Nat.le_div_iff_mul_le hDpos]
    omega
  · have hx : (m₂ + D - 1) / D < n + 2 := by
      rw [Nat.div_lt_iff_lt_mul hDpos]
      have hexp : (n + 2) * D = (n + 1) * D + D := by ring
      omega
    omega

/-- Claim C9, counterexample: a history of 49 error-free records is
reachable, has convergence rate exactly one half, and its
`estimatedIterationsRemaining` is `50`, not `49`: the binary64 evaluation of
`0.5 / (0.5 / 49)` is `49.000000000000007` (the double nearest `1/98` falls
short of it, and its reciprocal overshoots by more than half an ulp), so
`Math.ceil` lands one above the claim's `ceil((1 − 0.5)/(0.5/n)) = n`. -/
theorem convergence_estimate_claim_counterexample :
    (List.replicate 49 (plainEntry 5)).length = 49 ∧
    totalErrorCount (List.replicate 49 (plainEntry 5)) = 0 ∧
    (analyzeProgress
      (List.replicate 49 (plainEntry 5))).estimatedIterationsRemaining
      = some 50 ∧
    float64ZeroErrorEstimate 49 = 50 := by
  have ht0 : totalErrorCount (List.replicate 49 (plainEntry 5)) = 0 := by
    decide
  have hlt : ¬ (List.replicate 49 (plainEntry 5)).length < 3 := by decide
  have hlen : (List.replicate 49 (plainEntry 5)).length = 49 := by decide
  refine ⟨hlen, ht0, ?_, by decide⟩
  have hrate : convergenceRateOf (List.replicate 49 (plainEntry 5))
      = 1 / 2 := by
    unfold convergenceRateOf
    rw [ht0]
    norm_num
  have hest : (analyzeProgress
        (List.replicate 49 (plainEntry 5))).estimatedIterationsRemaining
      = estimatedRemainingOf (List.replicate 49 (plainEntry 5)) := by
    unfold analyzeProgress
    rw [if_neg hlt]
  rw [hest]
  unfold estimatedRemainingOf
  rw [hrate, hlen]
  rw [if_pos (by norm_num : (0 : ℚ) < 1 / 2),
    if_pos (by positivity : (0 : ℚ) < 1 / 2 / ((49 : ℕ) : ℚ)), if_pos rfl]
  rw [show float64ZeroErrorEstimate 49 = 50 from by decide]
  norm_num

/-- Claim C9 (amended): for every history of length `n ≥ 3` the analyzer's
convergence rate equals `1 − distinct signatures / total error occurrences`
when there is at least one error occurrence and exactly `1/2` otherwise; the
rate always lies in `[0, 1]`; in the zero-error case the rate `1/2` is
positive, both guards pass, and `estimatedIterationsRemaining` is defined and
equals the binary64 evaluation of `ceil((1 − 0.5) / (0.5 / n))` — which (for
`n ≤ 2^49`) is either `n` or `n + 1`, the excess case being reachable
(`50` at `n = 49`). -/
theorem convergence_rate_properties (h : List RalphIterationHistoryEntry)
    (h3 : 3 ≤ h.length) :
    ((analyzeProgress h).convergenceRate =
      if 0 < totalErrorCount h then
        1 - (distinctSignatureCount h : ℚ) / (totalErrorCount h : ℚ)
      else 1 / 2) ∧
    (0 ≤ (analyzeProgress h).convergenceRate ∧
      (analyzeProgress h).convergenceRate ≤ 1) ∧
    (totalErrorCount h = 0 →
      (analyzeProgress h).estimatedIterationsRemaining
        = some (float64ZeroErrorEstimate h.length : ℤ)) ∧
    (h.length ≤ 2 ^ 49 →
      h.length ≤ float64ZeroErrorEstimate h.length ∧
      float64ZeroErrorEstimate h.length ≤ h.length + 1) := by
  have hlt : ¬ h.length < 3 := by omega
  have hconv : (analyzeProgress h).convergenceRate = convergenceRateOf h := by
    simp [analyzeProgress, hlt]
  have hform : convergenceRateOf h =
      if 0 < totalErrorCount h then
        1 - (distinctSignatureCount h : ℚ) / (totalErrorCount h : ℚ)
      else 1 / 2 := by
    unfold convergenceRateOf
    rw [errorFrequency_length]
  refine ⟨hconv.trans hform, ?_, ?_, ?_⟩
  · rw [hconv, hform]
    by_cases ht : 0 < totalErrorCount h
    · rw [if_pos ht]
      have hle : distinctSignatureCount h ≤ totalErrorCount h := by
        unfold distinctSignatureCount
        rw [totalErrorCount_eq]
        exact List.toFinset_card_le (allSignatures h)
      have htq : (0 : ℚ) < (totalErrorCount h : ℚ) := by
        exact_mod_cast ht
      have hdivle : (distinctSignatureCount h : ℚ) / (totalErrorCount h : ℚ)
          ≤ 1 := by
        rw [div_le_one htq]
        exact_mod_cast hle
      have hdivnn : 0 ≤ (distinctSignatureCount h : ℚ) /
          (totalErrorCount h : ℚ) :=
        div_nonneg (by positivity) (le_of_lt htq)
      constructor
      · linarith
      · linarith
    · rw [if_neg ht]
      norm_num
  · intro ht0
    have hest : (analyzeProgress h).estimatedIterationsRemaining
        = estimatedRemainingOf h := by
      simp [analyzeProgress, hlt]
    have hrate : convergenceRateOf h = 1 / 2 := by
      simp [convergenceRateOf, ht0]
    have hnq : (0 : ℚ) < (h.length : ℚ) := by
      have : 0 < h.length := by omega
      exact_mod_cast this
    have hhalf : (0 : ℚ) < 1 / 2 := by norm_num
    have hppi : (0 : ℚ) < (1 / 2) / (h.length : ℚ) := div_pos hhalf hnq
    rw [hest]
    unfold estimatedRemainingOf
    rw [hrate, if_pos hhalf, if_pos hppi, if_pos rfl]
  · intro hb
    exact float64ZeroErrorEstimate_bounds h.length (by omega) hb

/-- Witness for `convergence_rate_properties` on an error-free history of
length 3: rate `1/2`, in range, and the binary64 estimate — which at this
length is exactly `3`. -/
theorem convergence_rate_properties_witness :
    (((analyzeProgress
        [plainEntry 10, plainEntry 200, plainEntry 64]).convergenceRate =
      if 0 < totalErrorCount [plainEntry 10, plainEntry 200, plainEntry 64]
        then 1 - (distinctSignatureCount
            [plainEntry 10, plainEntry 200, plainEntry 64] : ℚ) /
          (totalErrorCount
            [plainEntry 10, plainEntry 200, plainEntry 64] : ℚ)
        else 1 / 2) ∧
    (0 ≤ (analyzeProgress
        [plainEntry 10, plainEntry 200, plainEntry 64]).convergenceRate ∧
      (analyzeProgress
        [plainEntry 10, plainEntry 200, plainEntry 64]).convergenceRate
        ≤ 1) ∧
    (analyzeProgress
        [plainEntry 10, plainEntry 200,
          plainEntry 64]).estimatedIterationsRemaining
      = some (float64ZeroErrorEstimate 3 : ℤ) ∧
    (3 ≤ float64ZeroErrorEstimate 3 ∧ float64ZeroErrorEstimate 3 ≤ 3 + 1)) ∧
    float64ZeroErrorEstimate 3 = 3 :=
  ⟨⟨(convergence_rate_properties
      [plainEntry 10, plainEntry 200, plainEntry 64] (by decide)).1,
    (convergence_rate_properties
      [plainEntry 10, plainEntry 200, plainEntry 64] (by decide)).2.1,
    (convergence_rate_properties
      [plainEntry 10, plainEntry 200, plainEntry 64] (by decide)).2.2.1
      (by decide),
    (convergence_rate_properties
      [plainEntry 10, plainEntry 200, plainEntry 64] (by decide)).2.2.2
      (by norm_num)⟩,
    by decide⟩

end RalphSpec
